import Mathlib

/-
  Verification development for the macro-expansion core of rust-analyzer
  (crates hir_expand and mbe).

  The definitions below are a shallow embedding of the Rust sources:
    - crates/hir_expand/src/lib.rs  (virtual file identity, range ascension,
      token mapping up and down, ExpandTo inference)
    - crates/mbe/src/syntax_bridge.rs  (syntax tree to token tree conversion,
      token tree to syntax tree sink)

  Collaborator crates whose sources are not part of the sample (the mbe
  TokenMap, Shift and Origin types, and the db::TokenExpander dispatcher)
  are modelled from the specification; each such definition carries a
  doc comment saying so.

  Machine integers (u32 token ids, TextSize offsets) are modelled as Nat:
  none of the verified operations can overflow 2^32 on the inputs the
  theorems quantify over, and the sources use them as pure indices.
  Rust panics (assert!, panic!, index out of bounds) are modelled
  explicitly with the PanicOr result type.
-/

set_option linter.unusedVariables false

namespace RA

/-- Half-open text range [start, stop), mirroring rowan TextRange. -/
structure TextRange where
  start : Nat
  stop : Nat
deriving DecidableEq

def TextRange.len (r : TextRange) : Nat := r.stop - r.start

def TextRange.addOff (r : TextRange) (o : Nat) : TextRange := ⟨r.start + o, r.stop + o⟩

/-- TextRange::checked_sub on both endpoints, None on underflow. -/
def TextRange.checkedSub (r : TextRange) (o : Nat) : Option TextRange :=
  if o ≤ r.start ∧ o ≤ r.stop then some ⟨r.start - o, r.stop - o⟩ else none

def TextRange.cover (a b : TextRange) : TextRange := ⟨min a.start b.start, max a.stop b.stop⟩

/-- TextRange::contains_range: outer contains inner. -/
def TextRange.containsRange (outer inner : TextRange) : Bool :=
  outer.start ≤ inner.start && inner.stop ≤ outer.stop

set_option maxHeartbeats 2000000 in
/-- The syntax kinds that the embedded code inspects, plus an OTHER_KIND
constructor standing for the remaining kinds of the full enum. -/
inductive SyntaxKind where
  | WHITESPACE | COMMENT
  | IDENT | LIFETIME_IDENT | UNDERSCORE
  | TRUE_KW | FALSE_KW | FN_KW
  | INT_NUMBER | STRING
  | L_PAREN | R_PAREN | L_CURLY | R_CURLY | L_BRACK | R_BRACK
  | COMMA | SEMICOLON | PLUS | BANG | EQ | POUND
  | L_DOLLAR | R_DOLLAR
  | SOURCE_FILE | ITEM_LIST | MACRO_ITEMS | MACRO_STMTS | EXPR_STMT | STMT_LIST
  | MACRO_PAT | MACRO_TYPE | LET_STMT
  | ARG_LIST | TRY_EXPR | TUPLE_EXPR | PAREN_EXPR | ARRAY_EXPR | FOR_EXPR
  | PATH_EXPR | CLOSURE_EXPR | CONDITION | BREAK_EXPR | RETURN_EXPR
  | MATCH_EXPR | MATCH_ARM | MATCH_GUARD | RECORD_EXPR_FIELD | CALL_EXPR
  | INDEX_EXPR | METHOD_CALL_EXPR | FIELD_EXPR | AWAIT_EXPR | CAST_EXPR
  | REF_EXPR | PREFIX_EXPR | RANGE_EXPR | BIN_EXPR
  | MACRO_CALL | TOKEN_TREE | MACRO_RULES | MACRO_DEF | ATTR
  | PATH | NAME_REF | ERROR
  | OTHER_KIND
deriving DecidableEq

namespace SyntaxKind

/-- SyntaxKind::is_trivia. -/
def is_trivia : SyntaxKind → Bool
  | WHITESPACE => true
  | COMMENT => true
  | _ => false

/-- SyntaxKind::is_punct (single-character punctuation, including
delimiters and the underscore token). -/
def is_punct : SyntaxKind → Bool
  | L_PAREN | R_PAREN | L_CURLY | R_CURLY | L_BRACK | R_BRACK
  | COMMA | SEMICOLON | PLUS | BANG | EQ | POUND | UNDERSCORE => true
  | _ => false

/-- SyntaxKind::is_keyword (restricted to the keywords this model uses). -/
def is_keyword : SyntaxKind → Bool
  | TRUE_KW | FALSE_KW | FN_KW => true
  | _ => false

/-- SyntaxKind::is_literal (restricted to the literal kinds this model uses). -/
def is_literal : SyntaxKind → Bool
  | INT_NUMBER | STRING => true
  | _ => false

end SyntaxKind

/-! ## Token trees (crate tt) -/

abbrev TokenId := Nat

inductive Spacing where
  | alone
  | joint
deriving DecidableEq

inductive DelimiterKind where
  | parenthesis
  | brace
  | bracket
deriving DecidableEq

structure Delimiter where
  id : TokenId
  kind : DelimiterKind
deriving DecidableEq

inductive Leaf where
  | ident (text : String) (id : TokenId)
  | lit (text : String) (id : TokenId)
  | punct (ch : Char) (spacing : Spacing) (id : TokenId)
deriving DecidableEq

def Leaf.id : Leaf → TokenId
  | .ident _ i => i
  | .lit _ i => i
  | .punct _ _ i => i

/-- tt::TokenTree; the subtree constructor carries the fields of tt::Subtree. -/
inductive TokenTree where
  | leaf (l : Leaf)
  | sub (delimiter : Option Delimiter) (token_trees : List TokenTree)

/-- tt::Subtree as a structure (isomorphic to the `sub` constructor payload). -/
structure Subtree where
  delimiter : Option Delimiter
  token_trees : List TokenTree

def Subtree.toTT (s : Subtree) : TokenTree := .sub s.delimiter s.token_trees

/-! ## Token map (crate mbe)

Modelled from the spec: the mbe token-map source is not part of the
sample.  Per spec section 3, a token map is two tables: id to range for
ordinary leaf tokens, and id to (open_range, close_range?) for paired
delimiters, where close may be absent for unterminated trees.  The
queries are range_by_token / first_range_by_token (with a kind filter),
token_by_range, and enumeration of all ranges of an id. -/

inductive TokenTextRange where
  | token (r : TextRange)
  | delim (openR : TextRange) (closeR : Option TextRange)
deriving DecidableEq

abbrev TokenMap := List (TokenId × TokenTextRange)

namespace TokenMap

/-- Modelled from the spec: token_by_range finds the id recorded at a range. -/
def tokenByRange (m : TokenMap) (r : TextRange) : Option TokenId :=
  (m.find? fun e => match e.2 with
    | .token r0 => r0 = r
    | .delim o c => o = r ∨ c = some r).map (fun e => e.1)

/-- Modelled from the spec: the kind filter selects the opening or closing
delimiter range when the queried kind is a delimiter kind. -/
def byKind (t : TokenTextRange) (k : SyntaxKind) : Option TextRange :=
  match t with
  | .token r => some r
  | .delim o c =>
    match k with
    | .L_PAREN | .L_CURLY | .L_BRACK => some o
    | .R_PAREN | .R_CURLY | .R_BRACK => c
    | _ => none

/-- Modelled from the spec: first range recorded for an id, kind-filtered. -/
def firstRangeByToken (m : TokenMap) (id : TokenId) (k : SyntaxKind) : Option TextRange :=
  m.findSome? fun e => if e.1 = id then byKind e.2 k else none

/-- Modelled from the spec: all ranges recorded for an id, kind-filtered. -/
def rangesByToken (m : TokenMap) (id : TokenId) (k : SyntaxKind) : List TextRange :=
  m.filterMap fun e => if e.1 = id then byKind e.2 k else none

def insert (m : TokenMap) (id : TokenId) (r : TextRange) : TokenMap :=
  m ++ [(id, .token r)]

/-- Modelled from the spec: a delimiter entry with both ranges known. -/
def insertDelim (m : TokenMap) (id : TokenId) (o : TextRange) (c : Option TextRange) : TokenMap :=
  m ++ [(id, .delim o c)]

def removeDelim (m : TokenMap) (idx : Nat) : TokenMap :=
  m.eraseIdx idx

def updateCloseDelim (m : TokenMap) (idx : Nat) (c : TextRange) : TokenMap :=
  match m[idx]? with
  | some (id, .delim o _) => m.set idx (id, .delim o (some c))
  | _ => m

end TokenMap

/-! ## Syntax tree model

The rowan syntax tree is a collaborator (out of scope per the spec); this
is a minimal model sufficient for the embedded functions: a tree of nodes
whose leaves are tokens carrying kind, text and absolute range. -/

/-- A syntax token (kind, text, absolute range). -/
structure STok where
  kind : SyntaxKind
  text : String
  range : TextRange
deriving DecidableEq

inductive SyntaxNode where
  | tok (t : STok)
  | node (kind : SyntaxKind) (children : List SyntaxNode)

mutual

/-- All tokens of a node, in document order. -/
def SyntaxNode.tokensList : SyntaxNode → List STok
  | .tok t => [t]
  | .node _ cs => tokensListAux cs

def tokensListAux : List SyntaxNode → List STok
  | [] => []
  | c :: cs => c.tokensList ++ tokensListAux cs

end

mutual

/-- All descendant nodes (self included, preorder), tokens excluded,
mirroring rowan SyntaxNode::descendants. -/
def SyntaxNode.descendants : SyntaxNode → List SyntaxNode
  | .tok _ => []
  | .node k cs => .node k cs :: descendantsAux cs

def descendantsAux : List SyntaxNode → List SyntaxNode
  | [] => []
  | c :: cs => c.descendants ++ descendantsAux cs

end

def SyntaxNode.kind : SyntaxNode → SyntaxKind
  | .tok t => t.kind
  | .node k _ => k

def SyntaxNode.childNodes : SyntaxNode → List SyntaxNode
  | .tok _ => []
  | .node _ cs => cs.filter fun c => match c with | .node _ _ => true | .tok _ => false

def SyntaxNode.firstToken (n : SyntaxNode) : Option STok :=
  n.tokensList.head?

def SyntaxNode.lastToken (n : SyntaxNode) : Option STok :=
  n.tokensList.getLast?

/-- Node range, computed as the cover of its tokens (rowan stores it). -/
def SyntaxNode.textRange (n : SyntaxNode) : TextRange :=
  match n.tokensList.head?, n.tokensList.getLast? with
  | some a, some b => ⟨a.range.start, b.range.stop⟩
  | _, _ => ⟨0, 0⟩

/-- covering_element(range).into_token(): the token whose range contains the
queried range, if the smallest covering element is a token. -/
def SyntaxNode.coveringToken (n : SyntaxNode) (r : TextRange) : Option STok :=
  n.tokensList.find? fun t => t.range.containsRange r

inductive Direction where
  | next
  | prev
deriving DecidableEq

/-- syntax::algo::skip_trivia_token, in the token list of `root`: starting
from token `t`, walk in the given direction until a non-trivia token. -/
def skipTrivia (root : SyntaxNode) (t : STok) (dir : Direction) : Option STok :=
  let ts := root.tokensList
  match ts.findIdx? (fun x => x = t) with
  | none => none
  | some i =>
    match dir with
    | .next => (ts.drop i).find? fun x => !x.kind.is_trivia
    | .prev => ((ts.take (i + 1)).reverse).find? fun x => !x.kind.is_trivia

/-! ## Panic-aware results -/

/-- Result of running Rust code that can panic. -/
inductive PanicOr (α : Type) where
  | panicked (msg : String)
  | ok (val : α)
deriving DecidableEq

/-- find_map over a list of panic-aware Option computations: first success
wins, a panic propagates, all-none gives none. -/
def findMapP {α β : Type} (f : α → PanicOr (Option β)) : List α → PanicOr (Option β)
  | [] => .ok none
  | a :: as_ =>
    match f a with
    | .panicked m => .panicked m
    | .ok (some b) => .ok (some b)
    | .ok none => findMapP f as_

theorem findMapP_ok_some {α β : Type} (f : α → PanicOr (Option β)) (l : List α) (b : β)
    (h : findMapP f l = .ok (some b)) : ∃ a ∈ l, f a = .ok (some b) := by
  induction l with
  | nil => simp [findMapP] at h
  | cons x xs ih =>
    unfold findMapP at h
    cases hx : f x with
    | panicked m => rw [hx] at h; exact absurd h (by simp)
    | ok v =>
      cases v with
      | none =>
        rw [hx] at h; simp at h
        obtain ⟨a, ha, hfa⟩ := ih h
        exact ⟨a, List.mem_cons_of_mem _ ha, hfa⟩
      | some b0 =>
        rw [hx] at h; simp at h
        exact ⟨x, List.mem_cons_self x xs, by rw [hx, h]⟩

theorem findMapP_all_none {α β : Type} (f : α → PanicOr (Option β)) (l : List α)
    (h : ∀ a ∈ l, f a = .ok none) : findMapP f l = .ok none := by
  induction l with
  | nil => rfl
  | cons x xs ih =>
    unfold findMapP
    rw [h x (List.mem_cons_self x xs)]
    exact ih fun a ha => h a (List.mem_cons_of_mem _ ha)

theorem findMapP_no_panic {α β : Type} (f : α → PanicOr (Option β)) (l : List α)
    (h : ∀ a ∈ l, ∀ m, f a ≠ .panicked m) : ∀ m, findMapP f l ≠ .panicked m := by
  induction l with
  | nil => intro m; simp [findMapP]
  | cons x xs ih =>
    intro m
    unfold findMapP
    cases hx : f x with
    | panicked m0 => exact absurd hx (h x (List.mem_cons_self x xs) m0)
    | ok v =>
      cases v with
      | none => exact ih (fun a ha => h a (List.mem_cons_of_mem _ ha)) m
      | some b => simp

/-! ## Virtual file identity (crate hir_expand) -/

abbrev FileId := Nat

abbrev MacroCallId := Nat

/-- HirFileId: either a real file written by the user, or a macro call id
interpreted as a file (the HirFileIdRepr enum; the newtype wrapper around
it is omitted). -/
inductive HirFileId where
  | fileId (f : FileId)
  | macroFile (macro_call_id : MacroCallId)
deriving DecidableEq

/-- InFile: a value of T inside a particular file. -/
structure InFile (α : Type) where
  file_id : HirFileId
  value : α
deriving DecidableEq

/-- AstId: a stable pointer to an AST node in a file (InFile of a per-file
position index). -/
structure AstId where
  file_id : HirFileId
  value : Nat
deriving DecidableEq

inductive ProcMacroKind where
  | customDerive
  | funcLike
  | attrKind
deriving DecidableEq

/-- MacroDefKind (expander payloads of the builtin variants are carried by
the db-provided TokenExpander and omitted here). -/
inductive MacroDefKind where
  | declarative (id : AstId)
  | builtIn (id : AstId)
  | builtInAttr (id : AstId)
  | builtInDerive (id : AstId)
  | builtInEager (id : AstId)
  | procMac (kind : ProcMacroKind) (id : AstId)
deriving DecidableEq

structure MacroDefId where
  krate : Nat
  kind : MacroDefKind
  local_inner : Bool
deriving DecidableEq

/-- MacroDefId::ast_id: Left for the five non-procedural variants,
Right for procedural macros. -/
def MacroDefId.astIdEither (d : MacroDefId) : Sum AstId AstId :=
  match d.kind with
  | .procMac _ id => .inr id
  | .declarative id => .inl id
  | .builtIn id => .inl id
  | .builtInAttr id => .inl id
  | .builtInDerive id => .inl id
  | .builtInEager id => .inl id

/-- EagerCallInfo: either the expansion result or the eager macro argument,
plus the included file for include-like macros. -/
structure EagerCallInfo where
  arg_or_expansion : Subtree
  included_file : Option FileId

/-- ExpandTo: what syntactic fragment a macro call expands to. -/
inductive ExpandTo where
  | statements
  | items
  | pattern
  | typ
  | expr
deriving DecidableEq

/-- MacroCallKind. -/
inductive MacroCallKind where
  | fnLike (ast_id : AstId) (expand_to : ExpandTo)
  | derive (ast_id : AstId) (derive_name : String) (derive_attr_index : Nat)
  | attr (ast_id : AstId) (attr_name : String) (attr_args : Subtree × TokenMap)
      (invoc_attr_index : Nat)

structure MacroCallLoc where
  def_ : MacroDefId
  krate : Nat
  eager : Option EagerCallInfo
  kind : MacroCallKind

/-- mbe::Origin.  Modelled from the spec: whether a token in an expansion
came from the caller's arguments or from the macro definition body. -/
inductive Origin where
  | call
  | def_
deriving DecidableEq

/-- db::TokenExpander.  Modelled from the spec (the db module is not part
of the sample): a tagged sum of the five expander flavours; the
declarative variant carries its def-site token map and the shift that
separates def-site ids (below the shift) from caller ids (shifted up). -/
inductive TokenExpander where
  | declarative (def_site_token_map : TokenMap) (shift : Nat)
  | builtin
  | builtinAttr
  | builtinDerive
  | builtinEager
  | proc
deriving DecidableEq

/-- Modelled from the spec: Shift::unshift, None for ids below the shift. -/
def unshiftId (s : Nat) (id : TokenId) : Option TokenId :=
  if s ≤ id then some (id - s) else none

/-- Modelled from the spec: Shift::shift. -/
def shiftId (s : Nat) (id : TokenId) : TokenId := id + s

mutual

def ttIds : TokenTree → List TokenId
  | .leaf l => [l.id]
  | .sub d ts => (match d with | some dl => [dl.id] | none => []) ++ ttIdsAux ts

def ttIdsAux : List TokenTree → List TokenId
  | [] => []
  | t :: ts => ttIds t ++ ttIdsAux ts

end

/-- Modelled from the spec: Shift::new is one past the largest token id
occurring in the subtree (0 when there is none). -/
def shiftNew (s : Subtree) : Nat :=
  ((match s.delimiter with | some dl => [dl.id] | none => []) ++ ttIdsAux s.token_trees).foldl
    (fun a b => max a (b + 1)) 0

/-- Modelled from the spec: the expander's map_id_down.  Declarative macros
shift caller ids up into the merged id space; every other expander keeps
ids unchanged. -/
def TokenExpander.mapIdDown (e : TokenExpander) (id : TokenId) : TokenId :=
  match e with
  | .declarative _ s => shiftId s id
  | _ => id

/-- Modelled from the spec: the expander's map_id_up.  For declarative
macros an id that un-shifts came from the caller (Origin::Call) and one
below the shift was synthesized from the macro body (Origin::Def); every
other expander reports Origin::Call with the id unchanged. -/
def TokenExpander.mapIdUp (e : TokenExpander) (id : TokenId) : TokenId × Origin :=
  match e with
  | .declarative _ s =>
    match unshiftId s id with
    | some u => (u, .call)
    | none => (id, .def_)
  | _ => (id, .call)

/-- The database of collaborator queries (salsa db): the interner, AST-id
resolution (parse_or_expand composed with the ast-id map; total, as the
sources unwrap), the expander registry, the memoized expansion parse and
the memoized macro argument. -/
structure AstDatabase where
  lookupInternMac : MacroCallId → MacroCallLoc
  astToNode : AstId → SyntaxNode
  macroDefExpander : MacroDefId → Option TokenExpander
  parseMacroExpansion : MacroCallId → Option (SyntaxNode × TokenMap)
  macroArg : MacroCallId → Option (Subtree × TokenMap)

def AstId.toNode (db : AstDatabase) (a : AstId) : SyntaxNode :=
  db.astToNode a

/-- ast accessor: the first TOKEN_TREE child node (MacroCall::token_tree,
MacroRules::token_tree, MacroDef::body, Attr::token_tree). -/
def tokenTreeChild (n : SyntaxNode) : Option SyntaxNode :=
  n.childNodes.find? fun c => c.kind = .TOKEN_TREE

/-- ast accessor: the attribute children of an item, in syntactic order
(HasAttrs::attrs). -/
def attrsOf (n : SyntaxNode) : List SyntaxNode :=
  n.childNodes.filter fun c => c.kind = .ATTR

/-- ast accessor: TokenTree::left_delimiter_token. -/
def leftDelimiterToken (n : SyntaxNode) : Option STok :=
  match n.tokensList.head? with
  | some t =>
    match t.kind with
    | .L_PAREN | .L_BRACK | .L_CURLY => some t
    | _ => none
  | none => none

namespace MacroCallKind

/-- MacroCallKind::file_id: the file containing the macro invocation. -/
def file_id : MacroCallKind → HirFileId
  | .fnLike ast_id _ => ast_id.file_id
  | .derive ast_id _ _ => ast_id.file_id
  | .attr ast_id _ _ _ => ast_id.file_id

/-- MacroCallKind::to_node. -/
def to_node (db : AstDatabase) : MacroCallKind → InFile SyntaxNode
  | .fnLike ast_id _ => ⟨ast_id.file_id, ast_id.toNode db⟩
  | .derive ast_id _ _ => ⟨ast_id.file_id, ast_id.toNode db⟩
  | .attr ast_id _ _ _ => ⟨ast_id.file_id, ast_id.toNode db⟩

/-- MacroCallKind::arg: the macro input node (the call's token tree for
fn-like calls, the attributed item for derives and attributes). -/
def argNode (db : AstDatabase) : MacroCallKind → Option SyntaxNode
  | .fnLike ast_id _ => tokenTreeChild (ast_id.toNode db)
  | .derive ast_id _ _ => some (ast_id.toNode db)
  | .attr ast_id _ _ _ => some (ast_id.toNode db)

/-- MacroCallKind::expand_to. -/
def expand_to : MacroCallKind → ExpandTo
  | .fnLike _ e => e
  | .derive _ _ _ => .items
  | .attr _ _ _ _ => .items

end MacroCallKind

/-- HirFileId::original_file, with explicit fuel for the parent-chain walk
(the Rust recursion terminates because the file tree is finite; None means
the fuel was insufficient, which no theorem relies on). -/
def originalFile (db : AstDatabase) : Nat → HirFileId → Option FileId
  | _, .fileId f => some f
  | 0, .macroFile _ => none
  | fuel + 1, .macroFile callId =>
    let loc := db.lookupInternMac callId
    let fid : HirFileId :=
      match loc.eager with
      | some e =>
        match e.included_file with
        | some f => .fileId f
        | none => loc.kind.file_id
      | none => loc.kind.file_id
    originalFile db fuel fid

/-- HirFileId::call_node. -/
def callNode (db : AstDatabase) : HirFileId → Option (InFile SyntaxNode)
  | .fileId _ => none
  | .macroFile callId => some ((db.lookupInternMac callId).kind.to_node db)

/-- HirFileId::is_macro. -/
def isMacroFile : HirFileId → Bool
  | .fileId _ => false
  | .macroFile _ => true

/-- ExpansionInfo: how to map text ranges between the call site and the
expanded code. -/
structure ExpansionInfo where
  expanded : InFile SyntaxNode
  arg : InFile SyntaxNode
  attr_input_or_mac_def : Option (InFile SyntaxNode)
  macro_def : TokenExpander
  macro_arg : Subtree × TokenMap
  macro_arg_shift : Nat
  exp_map : TokenMap

/-- HirFileId::expansion_info. -/
def expansionInfo (db : AstDatabase) : HirFileId → Option ExpansionInfo
  | .fileId _ => none
  | .macroFile callId =>
    let loc := db.lookupInternMac callId
    match loc.kind.argNode db with
    | none => none
    | some arg_tt =>
      let defBody : Option (InFile SyntaxNode) :=
        match loc.def_.astIdEither with
        | .inr _ => none
        | .inl id =>
          let n := id.toNode db
          match n.kind with
          | .MACRO_RULES => (tokenTreeChild n).map fun tt => ⟨id.file_id, tt⟩
          | .MACRO_DEF => (tokenTreeChild n).map fun tt => ⟨id.file_id, tt⟩
          | _ => none
      let attrInput : Option (InFile SyntaxNode) :=
        match defBody with
        | some d => some d
        | none =>
          match loc.kind with
          | .attr ast_id _ _ invoc_attr_index =>
            match (attrsOf (ast_id.toNode db))[invoc_attr_index]? with
            | some attrNode => (tokenTreeChild attrNode).map fun tt => ⟨ast_id.file_id, tt⟩
            | none => none
          | _ => none
      match db.macroDefExpander loc.def_ with
      | none => none
      | some macroDef =>
        match db.parseMacroExpansion callId with
        | none => none
        | some (parseTree, expMap) =>
          match db.macroArg callId with
          | none => none
          | some macroArgPair =>
            some
              ⟨⟨.macroFile callId, parseTree⟩, ⟨loc.kind.file_id, arg_tt⟩, attrInput,
                macroDef, macroArgPair, shiftNew macroArgPair.1, expMap⟩

/-! ## Token mapping (ExpansionInfo::map_token_down / map_token_up) -/

def mapTokenDownAssertMsg : String :=
  "assertion failed: token.file_id == self.arg.file_id"

/-- ExpansionInfo::map_token_down: map a call-site token (optionally inside
the invoking attribute's input) to the tokens it produced in the
expansion.  Starts with assert_eq!(token.file_id, self.arg.file_id). -/
def mapTokenDown (db : AstDatabase) (info : ExpansionInfo) (item : Option SyntaxNode)
    (token : InFile STok) : PanicOr (Option (List (InFile STok))) :=
  if token.file_id ≠ info.arg.file_id then .panicked mapTokenDownAssertMsg
  else
    -- first stage: compute the pre-mapped id when the token lies in the
    -- attribute input; the ? operators return None from the whole function
    let stage1 : PanicOr (Sum (Option TokenId) Unit) :=
      match item with
      | none => .ok (.inl none)
      | some itemNode =>
        match info.expanded.file_id with
        | .fileId _ => .ok (.inr ())   -- return None
        | .macroFile callId =>
          let loc := db.lookupInternMac callId
          let token_range := token.value.range
          match loc.kind with
          | .attr _ _ attr_args invoc_attr_index =>
            match (attrsOf itemNode)[invoc_attr_index]? with
            | none => .ok (.inr ())    -- nth(..)? returned None
            | some attrNode =>
              match tokenTreeChild attrNode with
              | some tt =>
                if tt.textRange.containsRange token_range then
                  match leftDelimiterToken tt with
                  | none => .ok (.inr ())
                  | some lt =>
                    match token.value.range.checkedSub lt.range.start with
                    | none => .ok (.inr ())
                    | some range =>
                      match attr_args.2.tokenByRange range with
                      | none => .ok (.inr ())
                      | some tid => .ok (.inl (some (shiftId info.macro_arg_shift tid)))
                else .ok (.inl none)
              | none => .ok (.inl none)
          | _ => .ok (.inl none)
    match stage1 with
    | .panicked m => .panicked m
    | .ok (.inr _) => .ok none
    | .ok (.inl pre) =>
      let tid : Option TokenId :=
        match pre with
        | some t => some t
        | none =>
          match token.value.range.checkedSub info.arg.value.textRange.start with
          | none => none
          | some range =>
            match info.macro_arg.2.tokenByRange range with
            | none => none
            | some t => some (info.macro_def.mapIdDown t)
      match tid with
      | none => .ok none
      | some token_id =>
        let toks :=
          (info.exp_map.rangesByToken token_id token.value.kind).filterMap
            info.expanded.value.coveringToken
        .ok (some (toks.map fun t => ⟨info.expanded.file_id, t⟩))

def mapTokenUpPanicMsg : String :=
  "Origin::Def used with a non-declarative expander"

/-- The (token_map, tt) selection of map_token_up, with the possibly
un-shifted token id: for attribute calls a successful un-shift selects the
attribute-args map and the attribute input, otherwise the macro-arg map
and the arg; for other calls Origin::Call selects the macro-arg map and
Origin::Def the declarative def-site map — a fatal assertion when the
expander is not declarative or no definition body was captured. -/
def mapTokenUpSel (db : AstDatabase) (info : ExpansionInfo) (callId : MacroCallId)
    (p : TokenId × Origin) : PanicOr (Option (TokenId × TokenMap × InFile SyntaxNode)) :=
  match (db.lookupInternMac callId).kind with
  | .attr _ _ attr_args _ =>
    match unshiftId info.macro_arg_shift p.1 with
    | some unshifted =>
      match info.attr_input_or_mac_def with
      | none => .ok none
      | some tt => .ok (some (unshifted, attr_args.2, tt))
    | none => .ok (some (p.1, info.macro_arg.2, info.arg))
  | _ =>
    match p.2 with
    | .call => .ok (some (p.1, info.macro_arg.2, info.arg))
    | .def_ =>
      match info.macro_def, info.attr_input_or_mac_def with
      | .declarative def_site_token_map _, some tt =>
        .ok (some (p.1, def_site_token_map, tt))
      | _, _ => .panicked mapTokenUpPanicMsg

/-- The tail of map_token_up: look the id up in the selected map and find
the covering token in the selected tree. -/
def mapTokenUpFinish (kind : SyntaxKind) (origin : Origin)
    (s : TokenId × TokenMap × InFile SyntaxNode) : PanicOr (Option (InFile STok × Origin)) :=
  match s.2.1.firstRangeByToken s.1 kind with
  | none => .ok none
  | some range =>
    match s.2.2.value.coveringToken (range.addOff s.2.2.value.textRange.start) with
    | none => .ok none
    | some tok => .ok (some (⟨s.2.2.file_id, tok⟩, origin))

/-- ExpansionInfo::map_token_up: map a token of the expanded tree back to
the call-site token (or def-site token) it came from, with its Origin. -/
def mapTokenUp (db : AstDatabase) (info : ExpansionInfo) (token : InFile STok) :
    PanicOr (Option (InFile STok × Origin)) :=
  match info.exp_map.tokenByRange token.value.range with
  | none => .ok none
  | some tid0 =>
    match info.expanded.file_id with
    | .fileId _ => .ok none
    | .macroFile callId =>
      match mapTokenUpSel db info callId (info.macro_def.mapIdUp tid0) with
      | .panicked m => .panicked m
      | .ok none => .ok none
      | .ok (some s) => mapTokenUpFinish token.value.kind (info.macro_def.mapIdUp tid0).2 s

/-! ## Range ascension -/

/-- ascend_call_token: map a token up one level; stop with None when the
origin is not Call; recurse while the mapped file still has expansion
info.  Fuel bounds the recursion through the (finite) expansion tree. -/
def ascendCallToken (db : AstDatabase) : Nat → ExpansionInfo → InFile STok →
    PanicOr (Option (InFile STok))
  | fuel, expansion, token =>
    match mapTokenUp db expansion token with
    | .panicked m => .panicked m
    | .ok none => .ok none
    | .ok (some (mapped, origin)) =>
      if origin ≠ .call then .ok none
      else
        match expansionInfo db mapped.file_id with
        | some info =>
          match fuel with
          | 0 => .ok none
          | fuel + 1 => ascendCallToken db fuel info mapped
        | none => .ok (some mapped)

/-- The single-token test of original_range_opt: the node's first and last
non-trivia tokens coincide (None when the node has no tokens). -/
def singleOf (root : SyntaxNode) : Option Bool := do
  let ft ← root.firstToken
  let f ← skipTrivia root ft .next
  let lt ← root.lastToken
  let l ← skipTrivia root lt .prev
  pure (decide (f = l))

/-- The find_map closure of original_range_opt, applied to one descendant:
ascend the descendant's first and last non-trivia tokens; fail when they
land in different files or when a multi-token node collapsed to a single
token; otherwise return the cover of the two mapped ranges. -/
def origRangeStep (db : AstDatabase) (fuel : Nat) (expansion : ExpansionInfo)
    (node : InFile SyntaxNode) (single : Bool) (it : SyntaxNode) :
    PanicOr (Option (InFile TextRange)) :=
  match it.firstToken with
  | none => .ok none
  | some ft =>
    match skipTrivia node.value ft .next with
    | none => .ok none
    | some f0 =>
      match ascendCallToken db fuel expansion ⟨node.file_id, f0⟩ with
      | .panicked m => .panicked m
      | .ok none => .ok none
      | .ok (some first) =>
        match it.lastToken with
        | none => .ok none
        | some lt =>
          match skipTrivia node.value lt .prev with
          | none => .ok none
          | some l0 =>
            match ascendCallToken db fuel expansion ⟨node.file_id, l0⟩ with
            | .panicked m => .panicked m
            | .ok none => .ok none
            | .ok (some last_) =>
              if (single = false ∧ first = last_) ∨ first.file_id ≠ last_.file_id then .ok none
              else
                .ok (some ⟨first.file_id, first.value.range.cover last_.value.range⟩)

/-- original_range_opt (the free function of hir_expand). -/
def originalRangeOpt (db : AstDatabase) (fuel : Nat) (node : InFile SyntaxNode) :
    PanicOr (Option (InFile TextRange)) :=
  match expansionInfo db node.file_id with
  | none => .ok none
  | some expansion =>
    match singleOf node.value with
    | none => .ok none
    | some single =>
      findMapP (origRangeStep db fuel expansion node single) node.value.descendants

/-- InFile::original_file_range_opt. -/
def originalFileRangeOpt (db : AstDatabase) (fuel : Nat) (node : InFile SyntaxNode) :
    PanicOr (Option (FileId × TextRange)) :=
  match originalRangeOpt db fuel node with
  | .panicked m => .panicked m
  | .ok (some range) =>
    match originalFile db fuel range.file_id with
    | none => .ok none   -- fuel artifact; unreachable with sufficient fuel
    | some orig => .ok (some (orig, range.value))
  | .ok none =>
    if isMacroFile node.file_id then .ok none
    else
      match originalFile db fuel node.file_id with
      | some f => .ok (some (f, node.value.textRange))
      | none => .ok none

/-- The fallback loop of original_file_range: climb to the outermost
enclosing macro call node (fuel-bounded; None means insufficient fuel). -/
def callClimb (db : AstDatabase) : Nat → InFile SyntaxNode → Option (InFile SyntaxNode)
  | fuel, node =>
    match callNode db node.file_id with
    | none => some node
    | some p =>
      match fuel with
      | 0 => none
      | fuel + 1 => callClimb db fuel p

def originalFileRangeAssertMsg : String :=
  "assertion failed: node.file_id == orig_file"

/-- InFile::original_file_range: the precise mapped range when ascension
succeeds, otherwise the whole outermost macro call's range in the
original real file (with an assert_eq that the climbed-to file is real). -/
def originalFileRange (db : AstDatabase) (fuel : Nat) (node : InFile SyntaxNode) :
    PanicOr (Option (FileId × TextRange)) :=
  match originalFileRangeOpt db fuel node with
  | .panicked m => .panicked m
  | .ok (some res) => .ok (some res)
  | .ok none =>
    match callClimb db fuel node with
    | none => .ok none   -- fuel artifact; the Rust loop always terminates
    | some base =>
      match originalFile db fuel base.file_id with
      | none => .ok none -- fuel artifact
      | some orig =>
        if base.file_id = .fileId orig then .ok (some (orig, base.value.textRange))
        else .panicked originalFileRangeAssertMsg

/-! ## ExpandTo inference -/

/-- ExpandTo::from_call_site, as a function of the kind of the call's
parent node (the syntactic context; None models a call with no parent). -/
def fromCallSiteParent (parentKind : Option SyntaxKind) : ExpandTo :=
  match parentKind with
  | none => .statements
  | some k =>
    match k with
    | .MACRO_ITEMS | .SOURCE_FILE | .ITEM_LIST => .items
    | .MACRO_STMTS | .EXPR_STMT | .STMT_LIST => .statements
    | .MACRO_PAT => .pattern
    | .MACRO_TYPE => .typ
    | .ARG_LIST | .TRY_EXPR | .TUPLE_EXPR | .PAREN_EXPR | .ARRAY_EXPR | .FOR_EXPR
    | .PATH_EXPR | .CLOSURE_EXPR | .CONDITION | .BREAK_EXPR | .RETURN_EXPR
    | .MATCH_EXPR | .MATCH_ARM | .MATCH_GUARD | .RECORD_EXPR_FIELD | .CALL_EXPR
    | .INDEX_EXPR | .METHOD_CALL_EXPR | .FIELD_EXPR | .AWAIT_EXPR | .CAST_EXPR
    | .REF_EXPR | .PREFIX_EXPR | .RANGE_EXPR | .BIN_EXPR => .expr
    | .LET_STMT => .expr
    | _ => .items

/-! ## Syntax to token tree conversion (mbe::syntax_bridge::convert_tokens)

The conversion is generic over a TokenConvertor; the embedding fixes the
RawConvertor shape: a list of source tokens (kind, text, absolute range)
consumed in order, with bump taking the head and peek looking at the next
token, plus a doc-comment converter supplied as a function. -/

/-- TokenIdAlloc. -/
structure TokenIdAlloc where
  map : TokenMap
  global_offset : Nat
  next_id : Nat

def TokenIdAlloc.alloc (a : TokenIdAlloc) (abs : TextRange) : TokenId × TokenIdAlloc :=
  let rel : TextRange := ⟨abs.start - a.global_offset, abs.stop - a.global_offset⟩
  (a.next_id, ⟨a.map.insert a.next_id rel, a.global_offset, a.next_id + 1⟩)

/-- open_delim: allocate an id and append a pending delimiter entry
(close absent), returning the id and the entry's index. -/
def TokenIdAlloc.openDelim (a : TokenIdAlloc) (abs : TextRange) :
    (TokenId × Nat) × TokenIdAlloc :=
  let rel : TextRange := ⟨abs.start - a.global_offset, abs.stop - a.global_offset⟩
  ((a.next_id, a.map.length), ⟨a.map.insertDelim a.next_id rel none, a.global_offset, a.next_id + 1⟩)

/-- close_delim: with a close range, record it; with None, remove the
pending delimiter entry. -/
def TokenIdAlloc.closeDelim (a : TokenIdAlloc) (idx : Nat) (closeAbs : Option TextRange) :
    TokenIdAlloc :=
  match closeAbs with
  | none => ⟨a.map.removeDelim idx, a.global_offset, a.next_id⟩
  | some c =>
    ⟨a.map.updateCloseDelim idx ⟨c.start - a.global_offset, c.stop - a.global_offset⟩,
      a.global_offset, a.next_id⟩

/-- A stack entry of convert_tokens; entries above the root always carry a
delimiter (only the open-delimiter branch pushes), so the delimiter field
is non-optional and the root accumulator is kept separately. -/
structure StackEntry where
  delimiter : Delimiter
  trees : List TokenTree
  idx : Nat
  open_range : TextRange

/-- The closing kind expected for the innermost open delimiter. -/
def expectedCloser : DelimiterKind → SyntaxKind
  | .parenthesis => .R_PAREN
  | .brace => .R_CURLY
  | .bracket => .R_BRACK

/-- Which delimiter an opening punct starts. -/
def openerDelim : SyntaxKind → Option DelimiterKind
  | .L_PAREN => some .parenthesis
  | .L_CURLY => some .brace
  | .L_BRACK => some .bracket
  | _ => none

def openerChar : DelimiterKind → Char
  | .parenthesis => '('
  | .brace => Char.ofNat 123
  | .bracket => '['

/-- The spacing computed for a punct leaf from the peeked next token:
Alone before trivia and before an opening delimiter, Joint before any
other punct that is not underscore, Alone otherwise. -/
def punctSpacing (next : Option STok) : Spacing :=
  match next with
  | some n =>
    if n.kind.is_trivia ∨ n.kind = .L_BRACK ∨ n.kind = .L_CURLY ∨ n.kind = .L_PAREN then .alone
    else if n.kind.is_punct ∧ n.kind ≠ .UNDERSCORE then .joint
    else .alone
  | none => .alone

def convAssertMsg : String := "assertion failed: punct range length is 1"

def toCharMsg : String := "Token from lexer must be single char"

def docIndexMsg : String := "index out of bounds in doc comment token trees"

/-- Reassign the doc-string literal (token_trees[2] of the bracketed
subtree) to the comment's token id; indexing [2] on a shorter list is a
Rust panic. -/
def docSetId (id : TokenId) : List TokenTree → PanicOr (List TokenTree)
  | [] => .ok []
  | tt :: tts =>
    let hd : PanicOr TokenTree :=
      match tt with
      | .sub d ts =>
        match ts with
        | a :: b :: c :: rest =>
          match c with
          | .leaf (.lit s _) => .ok (.sub d (a :: b :: .leaf (.lit s id) :: rest))
          | _ => .ok (.sub d ts)
        | _ => .panicked docIndexMsg
      | l => .ok l
    match hd with
    | .panicked m => .panicked m
    | .ok h =>
      match docSetId id tts with
      | .panicked m => .panicked m
      | .ok t => .ok (h :: t)

/-- Append token trees to the current innermost target (the head stack
entry, or the root when the stack is empty). -/
def pushMany (root : List TokenTree) (stack : List StackEntry) (tts : List TokenTree) :
    List TokenTree × List StackEntry :=
  match stack with
  | [] => (root ++ tts, [])
  | e :: es => (root, ⟨e.delimiter, e.trees ++ tts, e.idx, e.open_range⟩ :: es)

/-- The matching-closer test of the punct branch: only the innermost open
delimiter is compared against the token. -/
def closerTest (stack : List StackEntry) (k : SyntaxKind) :
    Option (StackEntry × List StackEntry) :=
  match stack with
  | e :: es => if k = expectedCloser e.delimiter.kind then some (e, es) else none
  | [] => none

/-- The main loop of convert_tokens, one iteration per bumped token. -/
def convLoop (dc : STok → Option (List TokenTree)) :
    List STok → List TokenTree → List StackEntry → TokenIdAlloc →
    PanicOr (List TokenTree × List StackEntry × TokenIdAlloc)
  | [], root, stack, alloc => .ok (root, stack, alloc)
  | t :: rest, root, stack, alloc =>
    let range := t.range
    let k := t.kind
    if k = .COMMENT then
      match dc t with
      | some tts =>
        let r := alloc.alloc range
        match docSetId r.1 tts with
        | .panicked m => .panicked m
        | .ok tts1 =>
          let p := pushMany root stack tts1
          convLoop dc rest p.1 p.2 r.2
      | none => convLoop dc rest root stack alloc
    else if k.is_punct ∧ k ≠ .UNDERSCORE then
      if range.len ≠ 1 then .panicked convAssertMsg
      else
        match closerTest stack k with
        | some (e, es) =>
          let alloc1 := alloc.closeDelim e.idx (some range)
          let p := pushMany root es [TokenTree.sub (some e.delimiter) e.trees]
          convLoop dc rest p.1 p.2 alloc1
        | none =>
          match openerDelim k with
          | some kd =>
            let r := alloc.openDelim range
            convLoop dc rest root (⟨⟨r.1.1, kd⟩, [], r.1.2, range⟩ :: stack) r.2
          | none =>
            let spacing := punctSpacing rest.head?
            match t.text.toList.head? with
            | none => .panicked toCharMsg
            | some c =>
              let r := alloc.alloc range
              let p := pushMany root stack [TokenTree.leaf (.punct c spacing r.1)]
              convLoop dc rest p.1 p.2 r.2
    else
      if k = .TRUE_KW ∨ k = .FALSE_KW ∨ k = .IDENT ∨ k = .UNDERSCORE ∨ k.is_keyword then
        let r := alloc.alloc range
        let p := pushMany root stack [TokenTree.leaf (.ident t.text r.1)]
        convLoop dc rest p.1 p.2 r.2
      else if k.is_literal then
        let r := alloc.alloc range
        let p := pushMany root stack [TokenTree.leaf (.lit t.text r.1)]
        convLoop dc rest p.1 p.2 r.2
      else if k = .LIFETIME_IDENT then
        let r1 := alloc.alloc ⟨range.start, range.start + 1⟩
        let apostrophe := TokenTree.leaf (.punct (Char.ofNat 39) .joint r1.1)
        let r2 := r1.2.alloc ⟨range.start + 1, range.stop⟩
        let identLeaf := TokenTree.leaf (.ident (t.text.drop 1) r2.1)
        let p := pushMany root stack [apostrophe, identLeaf]
        convLoop dc rest p.1 p.2 r2.2
      else
        convLoop dc rest root stack alloc

/-- End-of-input recovery: flatten each still-open subtree by removing its
pending delimiter entry, re-emitting its opener as a punct leaf with a
fresh id at the opener's range, and appending its contents to the parent
(accumulator formulation of the source's merge-into-parent loop). -/
def convFlatten (root : List TokenTree) (stack : List StackEntry) (alloc : TokenIdAlloc) :
    List TokenTree × TokenIdAlloc :=
  go stack [] alloc
where
  go : List StackEntry → List TokenTree → TokenIdAlloc → List TokenTree × TokenIdAlloc
  | [], acc, alloc => (root ++ acc, alloc)
  | e :: es, acc, alloc =>
    let alloc1 := alloc.closeDelim e.idx none
    let r := alloc1.alloc e.open_range
    let leaf := TokenTree.leaf (.punct (openerChar e.delimiter.kind) .alone r.1)
    go es (leaf :: e.trees ++ acc) r.2

/-- convert_tokens over a source-token list, returning the subtree and the
token map (the collapse rule returns the single subtree child when the
root holds exactly one subtree). -/
def convertTokens (dc : STok → Option (List TokenTree)) (global_offset : Nat)
    (ts : List STok) : PanicOr (Subtree × TokenMap) :=
  match convLoop dc ts [] [] ⟨[], global_offset, 0⟩ with
  | .panicked m => .panicked m
  | .ok (root, stack, alloc) =>
    let p := convFlatten root stack alloc
    let result : Subtree :=
      match p.1 with
      | [TokenTree.sub d ts2] => ⟨d, ts2⟩
      | other => ⟨none, other⟩
    .ok (result, p.2.map)

/-! ## Token tree to syntax tree (mbe::syntax_bridge::token_tree_to_syntax_node)

The grammar's parser is a collaborator: it drives the TtTreeSink with a
sequence of token / start_node / finish_node / error events.  The token
buffer and its cursor are modelled by flattening the token tree into a
list of leaf / subtree-open / subtree-close entries with an index. -/

inductive ExpandError where
  | ConversionError
  | UnresolvedProcMacro
  | Other (msg : String)
deriving DecidableEq

/-- One entry of the flattened token buffer. -/
inductive BufEntry where
  | bleaf (l : Leaf)
  | bopen (d : Option Delimiter)
  | bclose (d : Option Delimiter)
deriving DecidableEq

mutual

def flattenTT : TokenTree → List BufEntry
  | .leaf l => [.bleaf l]
  | .sub d ts => .bopen d :: flattenTTAux ts ++ [.bclose d]

def flattenTTAux : List TokenTree → List BufEntry
  | [] => []
  | t :: ts => flattenTT t ++ flattenTTAux ts

end

/-- TokenBuffer::from_tokens for an undelimited root, from_subtree
otherwise. -/
def mkBuffer (s : Subtree) : List BufEntry :=
  match s.delimiter with
  | none => flattenTTAux s.token_trees
  | some _ => flattenTT s.toTT

/-- The events the parser collaborator feeds into the TreeSink. -/
inductive ParserEvent where
  | tokenEv (kind : SyntaxKind) (n_tokens : Nat)
  | startNodeEv (kind : SyntaxKind)
  | finishNodeEv
  | errorEv (msg : String)

/-- What the SyntaxTreeBuilder (collaborator) receives from the sink. -/
inductive InnerEvent where
  | itok (kind : SyntaxKind) (text : String)
  | istart (kind : SyntaxKind)
  | ifinish
  | ierror (msg : String) (pos : Nat)
deriving DecidableEq

/-- The sink state acted on by token(); the roots counter is kept apart. -/
structure SinkCore where
  pos : Nat
  open_delims : List (TokenId × Nat)
  text_pos : Nat
  inner : List InnerEvent
  token_map : TokenMap
deriving DecidableEq

def delimToStr (d : Option DelimiterKind) (closing : Bool) : String :=
  match d with
  | some .parenthesis => if closing then ")" else "("
  | some .brace => if closing then String.singleton (Char.ofNat 125) else String.singleton (Char.ofNat 123)
  | some .bracket => if closing then "]" else "["
  | none => ""

def sinkAsciiMsg : String := "assertion failed: punct char is ascii"

/-- One iteration of the for-loop inside TtTreeSink::token; returns the
accumulated text of the processed entry. -/
def sinkStep (buffer : List BufEntry) (core : SinkCore) : PanicOr (SinkCore × String) :=
  match buffer[core.pos]? with
  | none => .ok (core, "")   -- unreachable: the caller checks eof first
  | some (.bleaf l) =>
    match l with
    | .ident text id =>
      let range : TextRange := ⟨core.text_pos, core.text_pos + text.length⟩
      .ok (⟨core.pos + 1, core.open_delims, core.text_pos, core.inner,
        core.token_map.insert id range⟩, text)
    | .lit text id =>
      let range : TextRange := ⟨core.text_pos, core.text_pos + text.length⟩
      .ok (⟨core.pos + 1, core.open_delims, core.text_pos, core.inner,
        core.token_map.insert id range⟩, text)
    | .punct c _ id =>
      if c.toNat ≥ 128 then .panicked sinkAsciiMsg
      else
        let text := String.singleton c
        let range : TextRange := ⟨core.text_pos, core.text_pos + text.length⟩
        .ok (⟨core.pos + 1, core.open_delims, core.text_pos, core.inner,
          core.token_map.insert id range⟩, text)
  | some (.bopen d) =>
    let od :=
      match d with
      | some dl => core.open_delims ++ [(dl.id, core.text_pos)]
      | none => core.open_delims
    .ok (⟨core.pos + 1, od, core.text_pos, core.inner, core.token_map⟩, delimToStr (d.map Delimiter.kind) false)
  | some (.bclose d) =>
    let tm :=
      match d with
      | some dl =>
        match (core.open_delims.find? fun e => e.1 = dl.id) with
        | some e =>
          core.token_map.insertDelim dl.id ⟨e.2, e.2 + 1⟩ (some ⟨core.text_pos, core.text_pos + 1⟩)
        | none => core.token_map
      | none => core.token_map
    .ok (⟨core.pos + 1, core.open_delims, core.text_pos, core.inner, tm⟩, delimToStr (d.map Delimiter.kind) true)

/-- The for-loop of TtTreeSink::token: process up to n entries, stopping at
eof, accumulating text (text_pos advances with each entry's text) and
remembering the position of the last processed entry. -/
def sinkLoop (buffer : List BufEntry) : Nat → SinkCore → String → Nat →
    PanicOr (SinkCore × String × Nat)
  | 0, core, buf, last => .ok (core, buf, last)
  | n + 1, core, buf, last =>
    if buffer.length ≤ core.pos then .ok (core, buf, last)
    else
      match sinkStep buffer core with
      | .panicked m => .panicked m
      | .ok (core1, text) =>
        sinkLoop buffer n
          ⟨core1.pos, core1.open_delims, core1.text_pos + text.length, core1.inner, core1.token_map⟩
          (buf ++ text) core.pos

/-- Is the buffer entry a punct leaf (for the whitespace rule)? -/
def bufPunct (e : Option BufEntry) : Option (Char × Spacing) :=
  match e with
  | some (.bleaf (.punct c sp _)) => some (c, sp)
  | _ => none

/-- TtTreeSink::token. -/
def sinkToken (buffer : List BufEntry) (core : SinkCore) (kind : SyntaxKind) (n_tokens : Nat) :
    PanicOr SinkCore :=
  if kind = .L_DOLLAR ∨ kind = .R_DOLLAR then
    -- bump_subtree: advance the cursor, emit nothing
    .ok ⟨core.pos + 1, core.open_delims, core.text_pos, core.inner, core.token_map⟩
  else
    -- lifetimes are two consecutive tokens on the input side
    match sinkLoop buffer (if kind = .LIFETIME_IDENT then 2 else n_tokens) core "" core.pos with
    | .panicked m => .panicked m
    | .ok (core1, buf, last) =>
      -- whitespace between adjacent alone puncts, except after a semicolon
      match bufPunct buffer[last]?, bufPunct buffer[last + 1]? with
      | some (c, sp), some _ =>
        if sp = .alone ∧ c ≠ Char.ofNat 59 then
          .ok ⟨core1.pos, core1.open_delims, core1.text_pos + 1,
            core1.inner ++ [.itok kind buf] ++ [.itok .WHITESPACE " "], core1.token_map⟩
        else
          .ok ⟨core1.pos, core1.open_delims, core1.text_pos,
            core1.inner ++ [.itok kind buf], core1.token_map⟩
      | _, _ =>
        .ok ⟨core1.pos, core1.open_delims, core1.text_pos,
          core1.inner ++ [.itok kind buf], core1.token_map⟩

/-- TtTreeSink::start_node roots bookkeeping: push a fresh count when the
stack is empty or its top is complete, else increment the top. -/
def rootsStart (roots : List Nat) : List Nat :=
  match roots with
  | [] => [1]
  | 0 :: rest => 1 :: 0 :: rest
  | (n + 1) :: rest => (n + 2) :: rest

def rootsFinishMsg : String := "roots underflow in finish_node"

/-- TtTreeSink::finish_node roots bookkeeping: decrement the top count
(unwrap / usize underflow are Rust panics). -/
def rootsFinish (roots : List Nat) : PanicOr (List Nat) :=
  match roots with
  | [] => .panicked rootsFinishMsg
  | 0 :: _ => .panicked rootsFinishMsg
  | (n + 1) :: rest => .ok (n :: rest)

/-- Feed the parser's events through the sink. -/
def processEvents (buffer : List BufEntry) : List ParserEvent → SinkCore → List Nat →
    PanicOr (SinkCore × List Nat)
  | [], core, roots => .ok (core, roots)
  | e :: es, core, roots =>
    match e with
    | .tokenEv kind n =>
      match sinkToken buffer core kind n with
      | .panicked m => .panicked m
      | .ok core1 => processEvents buffer es core1 roots
    | .startNodeEv kind =>
      processEvents buffer es
        ⟨core.pos, core.open_delims, core.text_pos, core.inner ++ [.istart kind], core.token_map⟩
        (rootsStart roots)
    | .finishNodeEv =>
      match rootsFinish roots with
      | .panicked m => .panicked m
      | .ok roots1 =>
        processEvents buffer es
          ⟨core.pos, core.open_delims, core.text_pos, core.inner ++ [.ifinish], core.token_map⟩
          roots1
    | .errorEv msg =>
      processEvents buffer es
        ⟨core.pos, core.open_delims, core.text_pos, core.inner ++ [.ierror msg core.text_pos],
          core.token_map⟩
        roots

def initialSinkCore : SinkCore := ⟨0, [], 0, [], []⟩

/-- token_tree_to_syntax_node: build the buffer, run the parser's events
through the sink, fail with ConversionError unless exactly one root was
produced, otherwise return the built tree and the sink's token map. -/
def tokenTreeToSyntaxNode (tt : Subtree) (events : List ParserEvent) :
    PanicOr (Except ExpandError (List InnerEvent × TokenMap)) :=
  match processEvents (mkBuffer tt) events initialSinkCore [] with
  | .panicked m => .panicked m
  | .ok (core, roots) =>
    if roots.length ≠ 1 then .ok (.error .ConversionError)
    else .ok (.ok (core.inner, core.token_map))

/-! ## Concrete fixtures used by the witnesses

A real file 0 whose text is: m!(x) — a fn-like call of a declarative
macro m that expands to its argument, so the expansion file holds the
single expression x. -/

namespace Fixture

def tM : STok := ⟨.IDENT, "m", ⟨0, 1⟩⟩
def tBang : STok := ⟨.BANG, "!", ⟨1, 2⟩⟩
def tLP : STok := ⟨.L_PAREN, "(", ⟨2, 3⟩⟩
def tX : STok := ⟨.IDENT, "x", ⟨3, 4⟩⟩
def tRP : STok := ⟨.R_PAREN, ")", ⟨4, 5⟩⟩

/-- The call's argument token tree node: ( x ). -/
def argSyn : SyntaxNode := .node .TOKEN_TREE [.tok tLP, .tok tX, .tok tRP]

/-- The macro call node: m!(x). -/
def callSyn : SyntaxNode := .node .MACRO_CALL [.tok tM, .tok tBang, argSyn]

/-- The body token tree of the macro definition. -/
def bodySyn : SyntaxNode := .node .TOKEN_TREE [.tok ⟨.IDENT, "body", ⟨10, 14⟩⟩]

/-- The macro definition node. -/
def defSyn : SyntaxNode := .node .MACRO_RULES [bodySyn]

def astDef : AstId := ⟨.fileId 0, 0⟩
def astCall : AstId := ⟨.fileId 0, 1⟩

def defId0 : MacroDefId := ⟨0, .declarative astDef, false⟩
def loc0 : MacroCallLoc := ⟨defId0, 0, none, .fnLike astCall .expr⟩

/-- The declarative expander: def-site ids live below 10, caller ids are
shifted up by 10. -/
def expander0 : TokenExpander := .declarative [] 10

def macroArgSubtree : Subtree := ⟨some ⟨0, .parenthesis⟩, [.leaf (.ident "x" 1)]⟩

/-- Ranges relative to the argument node start (offset 2): the paren pair
and x. -/
def macroArgMap : TokenMap := [(0, .delim ⟨0, 1⟩ (some ⟨2, 3⟩)), (1, .token ⟨1, 2⟩)]

def expTok : STok := ⟨.IDENT, "x", ⟨0, 1⟩⟩

/-- The expansion's parse tree: the lone expression x. -/
def expSyn : SyntaxNode := .node .PATH_EXPR [.tok expTok]

/-- The expansion token map: caller id 1 shifted by 10. -/
def expMap : TokenMap := [(11, .token ⟨0, 1⟩)]

def db1 : AstDatabase :=
  ⟨fun _ => loc0,
   fun a => if a.value = 0 then defSyn else callSyn,
   fun _ => some expander0,
   fun _ => some (expSyn, expMap),
   fun _ => some (macroArgSubtree, macroArgMap)⟩

/-- The expansion info of the macro file of db1. -/
def info1 : ExpansionInfo :=
  ⟨⟨.macroFile 0, expSyn⟩, ⟨.fileId 0, argSyn⟩, some ⟨.fileId 0, bodySyn⟩, expander0,
    (macroArgSubtree, macroArgMap), 2, expMap⟩

/-- A node of the expansion file: the whole expanded expression. -/
def node1 : InFile SyntaxNode := ⟨.macroFile 0, expSyn⟩

/-- A node of the expansion file whose token is absent from the expansion
map, so precise ascension fails and the fallback applies. -/
def nodeQ : InFile SyntaxNode := ⟨.macroFile 0, .node .ERROR [.tok ⟨.IDENT, "q", ⟨7, 8⟩⟩]⟩

/-- A node of a real file. -/
def nodeR : InFile SyntaxNode := ⟨.fileId 7, .node .SOURCE_FILE [.tok ⟨.IDENT, "z", ⟨0, 1⟩⟩]⟩

/-- An include-like eager call location: included_file is file 42. -/
def locInc : MacroCallLoc := ⟨defId0, 0, some ⟨⟨none, []⟩, some 42⟩, .fnLike astCall .expr⟩

def dbInc : AstDatabase :=
  ⟨fun _ => locInc,
   fun a => if a.value = 0 then defSyn else callSyn,
   fun _ => some expander0,
   fun _ => some (expSyn, expMap),
   fun _ => some (macroArgSubtree, macroArgMap)⟩

end Fixture

namespace Fixture

/-- The doc-comment converter used by the bridge fixtures: no comments. -/
def dcNone : STok → Option (List TokenTree) := fun _ => none

/-- Scenario 6 input: foo!( a, b with the closing paren missing; the four
argument tokens ( a , b. -/
def unterminatedToks : List STok :=
  [⟨.L_PAREN, "(", ⟨0, 1⟩⟩, ⟨.IDENT, "a", ⟨1, 2⟩⟩, ⟨.COMMA, ",", ⟨2, 3⟩⟩, ⟨.IDENT, "b", ⟨3, 4⟩⟩]

/-- An identifier followed by an unmatched closing paren. -/
def strayCloserToks : List STok :=
  [⟨.IDENT, "a", ⟨0, 1⟩⟩, ⟨.R_PAREN, ")", ⟨1, 2⟩⟩]

/-- A plus immediately followed by an opening paren. -/
def plusParenToks : List STok :=
  [⟨.PLUS, "+", ⟨0, 1⟩⟩, ⟨.L_PAREN, "(", ⟨1, 2⟩⟩]

/-- A plus immediately followed by a plus. -/
def plusPlusToks : List STok :=
  [⟨.PLUS, "+", ⟨0, 1⟩⟩, ⟨.PLUS, "+", ⟨1, 2⟩⟩]

/-- A one-leaf token tree and the events a parse of it produces. -/
def ttW : Subtree := ⟨none, [.leaf (.ident "x" 3)]⟩

def eventsW : List ParserEvent := [.startNodeEv .PATH_EXPR, .tokenEv .IDENT 1, .finishNodeEv]

end Fixture

/-! ## Helper predicates and lemmas -/

def MacroCallKind.isAttr : MacroCallKind → Bool
  | .attr _ _ _ _ => true
  | _ => false

def TokenExpander.isDeclarative : TokenExpander → Bool
  | .declarative _ _ => true
  | _ => false

theorem originalFile_fileId (db : AstDatabase) (fuel : Nat) (f : FileId) :
    originalFile db fuel (.fileId f) = some f := by
  cases fuel <;> rfl

theorem originalFile_macroFile (db : AstDatabase) (fuel : Nat) (id : MacroCallId) :
    originalFile db (fuel + 1) (.macroFile id) =
      originalFile db fuel
        (match (db.lookupInternMac id).eager with
          | some e =>
            match e.included_file with
            | some f => .fileId f
            | none => (db.lookupInternMac id).kind.file_id
          | none => (db.lookupInternMac id).kind.file_id) := rfl

/-! ## Claim theorems -/

/-- C3: original_file returns a real file's id unchanged; for an expansion
whose interned location carries eager info with included_file set it
returns that included file (recursively resolved, which immediately
terminates because the included file is real); otherwise it recurses on
the file containing the call node. -/
theorem c3_thm :
    (∀ (db : AstDatabase) (fuel : Nat) (f : FileId),
      originalFile db fuel (.fileId f) = some f)
    ∧ (∀ (db : AstDatabase) (fuel : Nat) (id : MacroCallId) (e : EagerCallInfo) (f : FileId),
      (db.lookupInternMac id).eager = some e → e.included_file = some f →
      originalFile db (fuel + 1) (.macroFile id) = some f)
    ∧ (∀ (db : AstDatabase) (fuel : Nat) (id : MacroCallId),
      (∀ e, (db.lookupInternMac id).eager = some e → e.included_file = none) →
      originalFile db (fuel + 1) (.macroFile id) =
        originalFile db fuel (db.lookupInternMac id).kind.file_id) := by
  refine ⟨fun db fuel f => originalFile_fileId db fuel f, ?_, ?_⟩
  · intro db fuel id e f he hf
    rw [originalFile_macroFile]
    simp only [he, hf]
    exact originalFile_fileId db fuel f
  · intro db fuel id h
    rw [originalFile_macroFile]
    cases he : (db.lookupInternMac id).eager with
    | none => rfl
    | some e => simp only [he, h e he]

/-- C3 witness: with the include-like location of dbInc the included file
42 is returned; with the plain location of db1 the recursion proceeds on
the call's file (real file 0). -/
theorem c3_witness :
    originalFile Fixture.dbInc (1 + 1) (.macroFile 0) = some 42
    ∧ originalFile Fixture.db1 (0 + 1) (.macroFile 0) =
        originalFile Fixture.db1 0 (Fixture.db1.lookupInternMac 0).kind.file_id :=
  ⟨c3_thm.2.1 Fixture.dbInc 1 0 ⟨⟨none, []⟩, some 42⟩ 42 rfl rfl,
   c3_thm.2.2 Fixture.db1 0 0 (fun e he => by cases he)⟩

/-- C4: the expansion category from the syntactic context of the call:
statement position gives Statements; expression contexts (the listed
expression parents, CALL_EXPR, RETURN_EXPR and BIN_EXPR among them) give
Expr; MACRO_PAT gives Pattern; MACRO_TYPE gives Type; SOURCE_FILE and
ITEM_LIST give Items; every context not otherwise listed gives Items; and
Derive and Attr calls always expand to Items. -/
theorem c4_thm :
    (∀ k, k = SyntaxKind.MACRO_STMTS ∨ k = SyntaxKind.EXPR_STMT ∨ k = SyntaxKind.STMT_LIST →
      fromCallSiteParent (some k) = .statements)
    ∧ fromCallSiteParent (some .CALL_EXPR) = .expr
    ∧ fromCallSiteParent (some .RETURN_EXPR) = .expr
    ∧ fromCallSiteParent (some .BIN_EXPR) = .expr
    ∧ fromCallSiteParent (some .MACRO_PAT) = .pattern
    ∧ fromCallSiteParent (some .MACRO_TYPE) = .typ
    ∧ fromCallSiteParent (some .SOURCE_FILE) = .items
    ∧ fromCallSiteParent (some .ITEM_LIST) = .items
    ∧ (∀ k, k ∉ ([SyntaxKind.MACRO_ITEMS, .SOURCE_FILE, .ITEM_LIST, .MACRO_STMTS, .EXPR_STMT,
        .STMT_LIST, .MACRO_PAT, .MACRO_TYPE, .ARG_LIST, .TRY_EXPR, .TUPLE_EXPR, .PAREN_EXPR,
        .ARRAY_EXPR, .FOR_EXPR, .PATH_EXPR, .CLOSURE_EXPR, .CONDITION, .BREAK_EXPR,
        .RETURN_EXPR, .MATCH_EXPR, .MATCH_ARM, .MATCH_GUARD, .RECORD_EXPR_FIELD, .CALL_EXPR,
        .INDEX_EXPR, .METHOD_CALL_EXPR, .FIELD_EXPR, .AWAIT_EXPR, .CAST_EXPR, .REF_EXPR,
        .PREFIX_EXPR, .RANGE_EXPR, .BIN_EXPR, .LET_STMT] : List SyntaxKind) →
      fromCallSiteParent (some k) = .items)
    ∧ (∀ ast_id name idx, MacroCallKind.expand_to (.derive ast_id name idx) = .items)
    ∧ (∀ ast_id name args idx, MacroCallKind.expand_to (.attr ast_id name args idx) = .items) := by
  refine ⟨?_, rfl, rfl, rfl, rfl, rfl, rfl, rfl, ?_, fun _ _ _ => rfl, fun _ _ _ _ => rfl⟩
  · intro k h
    rcases h with h | h | h <;> subst h <;> rfl
  · intro k hk
    cases k <;> first
      | rfl
      | (exfalso; apply hk; simp)

/-- C4 witness: a statement-position parent and a kind outside every
listed set (an ERROR node parent). -/
theorem c4_witness :
    fromCallSiteParent (some .EXPR_STMT) = .statements
    ∧ fromCallSiteParent (some .ERROR) = .items :=
  ⟨c4_thm.1 .EXPR_STMT (Or.inr (Or.inl rfl)),
   c4_thm.2.2.2.2.2.2.2.2.1 .ERROR (by simp)⟩

theorem mapTokenUpFinish_no_panic (kind : SyntaxKind) (origin : Origin)
    (s : TokenId × TokenMap × InFile SyntaxNode) (m : String) :
    mapTokenUpFinish kind origin s ≠ .panicked m := by
  unfold mapTokenUpFinish
  split
  · simp
  · split <;> simp

theorem mapTokenUpSel_panic_iff (db : AstDatabase) (info : ExpansionInfo)
    (callId : MacroCallId) (p : TokenId × Origin) (m : String) :
    mapTokenUpSel db info callId p = .panicked m ↔
      (m = mapTokenUpPanicMsg ∧ (db.lookupInternMac callId).kind.isAttr = false ∧ p.2 = .def_ ∧
        (info.macro_def.isDeclarative = false ∨ info.attr_input_or_mac_def = none)) := by
  unfold mapTokenUpSel
  cases hk : (db.lookupInternMac callId).kind with
  | attr a b c d =>
    cases unshiftId info.macro_arg_shift p.1 with
    | some u => cases info.attr_input_or_mac_def <;> simp [MacroCallKind.isAttr]
    | none => simp [MacroCallKind.isAttr]
  | fnLike a b =>
    cases hp : p.2 with
    | call => simp [hp]
    | def_ =>
      cases hd : info.macro_def <;> cases ha : info.attr_input_or_mac_def <;>
        simp [hp, hd, ha, MacroCallKind.isAttr, TokenExpander.isDeclarative, eq_comm]
  | derive a b c =>
    cases hp : p.2 with
    | call => simp [hp]
    | def_ =>
      cases hd : info.macro_def <;> cases ha : info.attr_input_or_mac_def <;>
        simp [hp, hd, ha, MacroCallKind.isAttr, TokenExpander.isDeclarative, eq_comm]

/-- C5: map_token_up hits its fatal assertion exactly when a mapped token
id exists, the expansion file is a macro file, the call is not an
attribute call, the expander's map_id_up reports Origin::Def, and the
expander is not a declarative macro or no macro definition body was
captured; in that situation the result is the panic, never a recoverable
error value or None. -/
theorem c5_thm (db : AstDatabase) (info : ExpansionInfo) (token : InFile STok) :
    mapTokenUp db info token = .panicked mapTokenUpPanicMsg ↔
      ∃ tid0 callId,
        info.exp_map.tokenByRange token.value.range = some tid0 ∧
        info.expanded.file_id = .macroFile callId ∧
        (db.lookupInternMac callId).kind.isAttr = false ∧
        (info.macro_def.mapIdUp tid0).2 = .def_ ∧
        (info.macro_def.isDeclarative = false ∨ info.attr_input_or_mac_def = none) := by
  unfold mapTokenUp
  cases h0 : info.exp_map.tokenByRange token.value.range with
  | none => simp [h0]
  | some tid0 =>
    cases hf : info.expanded.file_id with
    | fileId f => simp [hf]
    | macroFile callId =>
      simp only [hf]
      cases hs : mapTokenUpSel db info callId (info.macro_def.mapIdUp tid0) with
      | panicked m =>
        obtain ⟨hm, hAttr, hDef, hDecl⟩ := (mapTokenUpSel_panic_iff db info callId _ m).mp hs
        subst hm
        constructor
        · intro _
          exact ⟨tid0, callId, rfl, rfl, hAttr, hDef, hDecl⟩
        · intro _; rfl
      | ok v =>
        have hnp : ∀ m, mapTokenUpSel db info callId (info.macro_def.mapIdUp tid0) ≠
            .panicked m := by
          intro m hc; rw [hs] at hc; cases hc
        constructor
        · intro h
          exfalso
          cases v with
          | none => cases h
          | some s => exact mapTokenUpFinish_no_panic _ _ _ _ h
        · rintro ⟨tid0x, callIdx, h1, h2, h3, h4, h5⟩
          exfalso
          cases h1
          cases h2
          exact hnp mapTokenUpPanicMsg
            ((mapTokenUpSel_panic_iff db info callId _ mapTokenUpPanicMsg).mpr
              ⟨rfl, h3, h4, h5⟩)

theorem origRangeStep_ok_some {db : AstDatabase} {fuel : Nat} {expansion : ExpansionInfo}
    {node : InFile SyntaxNode} {single : Bool} {it : SyntaxNode} {res : InFile TextRange}
    (h : origRangeStep db fuel expansion node single it = .ok (some res)) :
    ∃ ft f0 first lt l0 last_,
      it.firstToken = some ft ∧
      skipTrivia node.value ft .next = some f0 ∧
      ascendCallToken db fuel expansion ⟨node.file_id, f0⟩ = .ok (some first) ∧
      it.lastToken = some lt ∧
      skipTrivia node.value lt .prev = some l0 ∧
      ascendCallToken db fuel expansion ⟨node.file_id, l0⟩ = .ok (some last_) ∧
      first.file_id = last_.file_id ∧
      (single = false → first ≠ last_) ∧
      res = ⟨first.file_id, first.value.range.cover last_.value.range⟩ := by
  unfold origRangeStep at h
  split at h
  · simp at h
  next ft hft =>
    split at h
    · simp at h
    next f0 hf0 =>
      split at h
      · simp at h
      · simp at h
      next first hfirst =>
        split at h
        · simp at h
        next lt hlt =>
          split at h
          · simp at h
          next l0 hl0 =>
            split at h
            · simp at h
            · simp at h
            next last_ hlast =>
              split at h
              · simp at h
              next hguard =>
                rw [not_or] at hguard
                obtain ⟨hg1, hg2⟩ := hguard
                rw [not_ne_iff] at hg2
                simp only [PanicOr.ok.injEq, Option.some.injEq] at h
                exact ⟨ft, f0, first, lt, l0, last_, hft, hf0, hfirst, hlt, hl0, hlast, hg2,
                  fun hs hfl => hg1 ⟨hs, hfl⟩, h.symm⟩

/-- C2: original_range_opt returns a range only when some descendant's
first and last non-trivia tokens both ascend (via repeated Call-origin
map-ups) into the same file, with the two mapped tokens distinct unless
the node was a single token, and the returned range is the cover of the
two mapped tokens' ranges; when every descendant fails this test the
result is None, and a Def-origin mapping step makes the ascent of that
token fail. -/
theorem c2_thm :
    (∀ (db : AstDatabase) (fuel : Nat) (node : InFile SyntaxNode) (res : InFile TextRange),
      originalRangeOpt db fuel node = .ok (some res) →
      ∃ expansion single,
        expansionInfo db node.file_id = some expansion ∧
        singleOf node.value = some single ∧
        ∃ it ∈ node.value.descendants, ∃ ft f0 first lt l0 last_,
          it.firstToken = some ft ∧
          skipTrivia node.value ft .next = some f0 ∧
          ascendCallToken db fuel expansion ⟨node.file_id, f0⟩ = .ok (some first) ∧
          it.lastToken = some lt ∧
          skipTrivia node.value lt .prev = some l0 ∧
          ascendCallToken db fuel expansion ⟨node.file_id, l0⟩ = .ok (some last_) ∧
          first.file_id = last_.file_id ∧
          (single = false → first ≠ last_) ∧
          res = ⟨first.file_id, first.value.range.cover last_.value.range⟩)
    ∧ (∀ (db : AstDatabase) (fuel : Nat) (node : InFile SyntaxNode)
        (expansion : ExpansionInfo) (single : Bool),
      expansionInfo db node.file_id = some expansion →
      singleOf node.value = some single →
      (∀ it ∈ node.value.descendants,
        origRangeStep db fuel expansion node single it = .ok none) →
      originalRangeOpt db fuel node = .ok none)
    ∧ (∀ (db : AstDatabase) (fuel : Nat) (expansion : ExpansionInfo) (token : InFile STok)
        (mapped : InFile STok),
      mapTokenUp db expansion token = .ok (some (mapped, .def_)) →
      ascendCallToken db fuel expansion token = .ok none) := by
  refine ⟨?_, ?_, ?_⟩
  · intro db fuel node res h
    unfold originalRangeOpt at h
    split at h
    · simp at h
    next expansion hE =>
      split at h
      · simp at h
      next single hS =>
        obtain ⟨it, hit, hstep⟩ := findMapP_ok_some _ _ _ h
        obtain ⟨ft, f0, first, lt, l0, last_, hs⟩ := origRangeStep_ok_some hstep
        exact ⟨expansion, single, hE, hS, it, hit, ft, f0, first, lt, l0, last_, hs⟩
  · intro db fuel node expansion single hE hS hAll
    unfold originalRangeOpt
    rw [hE, hS]
    exact findMapP_all_none _ _ hAll
  · intro db fuel expansion token mapped h
    unfold ascendCallToken
    rw [h]
    simp

namespace Fixture

/-- A declarative expander whose def-site map carries id 5. -/
def expanderD : TokenExpander := .declarative [(5, .token ⟨0, 4⟩)] 10

/-- An expansion info whose expansion map assigns the def-site id 5 to the
expanded token, so map-up reports Origin::Def. -/
def infoD : ExpansionInfo :=
  ⟨⟨.macroFile 0, expSyn⟩, ⟨.fileId 0, argSyn⟩, some ⟨.fileId 0, bodySyn⟩, expanderD,
    (macroArgSubtree, macroArgMap), 2, [(5, .token ⟨0, 1⟩)]⟩

end Fixture

/-- C2 witness: on the fixture expansion the whole expanded node maps to
the range of x at the call site; on the unmappable node every descendant
fails and None is returned; and a Def-origin map-up makes the ascent
return None. -/
theorem c2_witness :
    (∃ expansion single,
      expansionInfo Fixture.db1 Fixture.node1.file_id = some expansion ∧
      singleOf Fixture.node1.value = some single ∧
      ∃ it ∈ Fixture.node1.value.descendants, ∃ ft f0 first lt l0 last_,
        it.firstToken = some ft ∧
        skipTrivia Fixture.node1.value ft .next = some f0 ∧
        ascendCallToken Fixture.db1 0 expansion ⟨Fixture.node1.file_id, f0⟩ = .ok (some first) ∧
        it.lastToken = some lt ∧
        skipTrivia Fixture.node1.value lt .prev = some l0 ∧
        ascendCallToken Fixture.db1 0 expansion ⟨Fixture.node1.file_id, l0⟩ = .ok (some last_) ∧
        first.file_id = last_.file_id ∧
        (single = false → first ≠ last_) ∧
        (⟨.fileId 0, ⟨3, 4⟩⟩ : InFile TextRange) =
          ⟨first.file_id, first.value.range.cover last_.value.range⟩)
    ∧ originalRangeOpt Fixture.db1 0 Fixture.nodeQ = .ok none
    ∧ ascendCallToken Fixture.db1 7 Fixture.infoD ⟨.macroFile 0, Fixture.expTok⟩ = .ok none := by
  refine ⟨c2_thm.1 Fixture.db1 0 Fixture.node1 ⟨.fileId 0, ⟨3, 4⟩⟩ rfl, ?_, ?_⟩
  · exact c2_thm.2.1 Fixture.db1 0 Fixture.nodeQ Fixture.info1 true rfl rfl
      (by
        intro it hit
        have he : it = SyntaxNode.node .ERROR [.tok ⟨.IDENT, "q", ⟨7, 8⟩⟩] := by
          simpa [Fixture.nodeQ, SyntaxNode.descendants, descendantsAux] using hit
        subst he
        rfl)
  · exact c2_thm.2.2 Fixture.db1 7 Fixture.infoD ⟨.macroFile 0, Fixture.expTok⟩
      ⟨.fileId 0, ⟨.IDENT, "body", ⟨10, 14⟩⟩⟩ rfl

/-- Parser event sequences are well formed when every finish_node closes
an open node (positive depth). -/
def wfEvents : List ParserEvent → Nat → Bool
  | [], _ => true
  | .startNodeEv _ :: es, d => wfEvents es (d + 1)
  | .finishNodeEv :: _, 0 => false
  | .finishNodeEv :: es, d + 1 => wfEvents es d
  | .tokenEv _ _ :: es, d => wfEvents es d
  | .errorEv _ :: es, d => wfEvents es d

/-- The number of top-level nodes a well-formed event sequence builds when
started at the given depth. -/
def topCount : List ParserEvent → Nat → Nat
  | [], _ => 0
  | .startNodeEv _ :: es, 0 => 1 + topCount es 1
  | .startNodeEv _ :: es, d + 1 => topCount es (d + 2)
  | .finishNodeEv :: es, 0 => topCount es 0
  | .finishNodeEv :: es, d + 1 => topCount es d
  | .tokenEv _ _ :: es, d => topCount es d
  | .errorEv _ :: es, d => topCount es d

/-- Every punct leaf of the buffer carries an ascii char (guaranteed for
buffers built by the bridge; the sink asserts it). -/
def asciiOk (buffer : List BufEntry) : Bool :=
  buffer.all fun e =>
    match e with
    | .bleaf (.punct c _ _) => c.toNat < 128
    | _ => true

theorem PanicOr.ne_panicked_ok {α : Type} (x : PanicOr α) (h : ∀ m, x ≠ .panicked m) :
    ∃ v, x = .ok v := by
  cases x with
  | panicked m => exact absurd rfl (h m)
  | ok v => exact ⟨v, rfl⟩

theorem sinkStep_no_panic (buffer : List BufEntry) (h : asciiOk buffer = true)
    (core : SinkCore) (m : String) : sinkStep buffer core ≠ .panicked m := by
  intro hcontra
  unfold sinkStep at hcontra
  split at hcontra
  · simp at hcontra
  next l hl =>
    split at hcontra
    · simp at hcontra
    · simp at hcontra
    next c sp id =>
      split at hcontra
      next hge =>
        have hmem : BufEntry.bleaf (.punct c sp id) ∈ buffer := List.getElem?_mem hl
        have := (List.all_eq_true.mp h) _ hmem
        simp at this
        omega
      · simp at hcontra
  · simp at hcontra
  · simp at hcontra

theorem sinkLoop_no_panic (buffer : List BufEntry) (h : asciiOk buffer = true) :
    ∀ (n : Nat) (core : SinkCore) (buf : String) (last : Nat) (m : String),
    sinkLoop buffer n core buf last ≠ .panicked m := by
  intro n
  induction n with
  | zero => intro core buf last m hcontra; cases hcontra
  | succ n ih =>
    intro core buf last m hcontra
    unfold sinkLoop at hcontra
    split at hcontra
    · simp at hcontra
    · split at hcontra
      next m0 hstep => exact sinkStep_no_panic buffer h core m0 hstep
      next p hstep => exact ih _ _ _ m hcontra

theorem sinkToken_no_panic (buffer : List BufEntry) (h : asciiOk buffer = true)
    (core : SinkCore) (kind : SyntaxKind) (n : Nat) (m : String) :
    sinkToken buffer core kind n ≠ .panicked m := by
  intro hcontra
  unfold sinkToken at hcontra
  split at hcontra
  · simp at hcontra
  · split at hcontra
    next m0 hl => exact sinkLoop_no_panic buffer h _ _ _ _ m0 hl
    next core1 buf last hl =>
      split at hcontra
      · split at hcontra <;> simp at hcontra
      · simp at hcontra

theorem processEvents_token (buffer : List BufEntry) (k : SyntaxKind) (n : Nat)
    (es : List ParserEvent) (core : SinkCore) (roots : List Nat) :
    processEvents buffer (.tokenEv k n :: es) core roots =
      match sinkToken buffer core k n with
      | .panicked m => .panicked m
      | .ok core1 => processEvents buffer es core1 roots := rfl

theorem processEvents_start (buffer : List BufEntry) (k : SyntaxKind)
    (es : List ParserEvent) (core : SinkCore) (roots : List Nat) :
    processEvents buffer (.startNodeEv k :: es) core roots =
      processEvents buffer es
        ⟨core.pos, core.open_delims, core.text_pos, core.inner ++ [.istart k], core.token_map⟩
        (rootsStart roots) := rfl

theorem processEvents_finish (buffer : List BufEntry)
    (es : List ParserEvent) (core : SinkCore) (roots : List Nat) :
    processEvents buffer (.finishNodeEv :: es) core roots =
      match rootsFinish roots with
      | .panicked m => .panicked m
      | .ok roots1 =>
        processEvents buffer es
          ⟨core.pos, core.open_delims, core.text_pos, core.inner ++ [.ifinish], core.token_map⟩
          roots1 := rfl

theorem processEvents_error (buffer : List BufEntry) (msg : String)
    (es : List ParserEvent) (core : SinkCore) (roots : List Nat) :
    processEvents buffer (.errorEv msg :: es) core roots =
      processEvents buffer es
        ⟨core.pos, core.open_delims, core.text_pos, core.inner ++ [.ierror msg core.text_pos],
          core.token_map⟩
        roots := rfl

/-- The invariant tying the sink's roots stack to the current depth d and
the number t of top-level nodes started so far. -/
def rootsInv (roots : List Nat) (d t : Nat) : Prop :=
  roots.length = t ∧
  (match d with
   | 0 => ∀ x ∈ roots, x = 0
   | d + 1 => ∃ rest, roots = (d + 1) :: rest ∧ ∀ x ∈ rest, x = 0)

theorem processEvents_wf (buffer : List BufEntry) (hb : asciiOk buffer = true) :
    ∀ (es : List ParserEvent) (d : Nat) (roots : List Nat) (t : Nat) (core : SinkCore),
    wfEvents es d = true → rootsInv roots d t →
    ∃ core2 roots2, processEvents buffer es core roots = .ok (core2, roots2) ∧
      roots2.length = t + topCount es d := by
  intro es
  induction es with
  | nil =>
    intro d roots t core _ hinv
    exact ⟨core, roots, rfl, by simp [topCount, hinv.1]⟩
  | cons e es ih =>
    intro d roots t core hwf hinv
    cases e with
    | tokenEv k n =>
      obtain ⟨core1, hcore1⟩ :=
        PanicOr.ne_panicked_ok _ (fun m => sinkToken_no_panic buffer hb core k n m)
      have hrec := ih d roots t core1 (by simpa [wfEvents] using hwf) hinv
      obtain ⟨core2, roots2, hp, hlen⟩ := hrec
      refine ⟨core2, roots2, ?_, ?_⟩
      · rw [processEvents_token, hcore1]
        exact hp
      · simpa [topCount] using hlen
    | errorEv msg =>
      have hrec := ih d roots t
        ⟨core.pos, core.open_delims, core.text_pos, core.inner ++ [.ierror msg core.text_pos],
          core.token_map⟩ (by simpa [wfEvents] using hwf) hinv
      obtain ⟨core2, roots2, hp, hlen⟩ := hrec
      exact ⟨core2, roots2, by rw [processEvents_error]; exact hp,
        by simpa [topCount] using hlen⟩
    | startNodeEv k =>
      obtain ⟨hlen0, hsh⟩ := hinv
      cases d with
      | zero =>
        have hnew : rootsInv (rootsStart roots) 1 (t + 1) := by
          cases roots with
          | nil =>
            simp only [List.length_nil] at hlen0
            exact ⟨by simp [rootsStart, ← hlen0], [], rfl, fun x hx => absurd hx (List.not_mem_nil x)⟩
          | cons a rest =>
            have ha : a = 0 := hsh a (List.mem_cons_self a rest)
            subst ha
            refine ⟨?_, 0 :: rest, rfl, fun x hx => hsh x hx⟩
            simp [rootsStart] at hlen0 ⊢
            omega
        have hrec := ih 1 (rootsStart roots) (t + 1)
          ⟨core.pos, core.open_delims, core.text_pos, core.inner ++ [.istart k],
            core.token_map⟩ (by simpa [wfEvents] using hwf) hnew
        obtain ⟨core2, roots2, hp, hlen⟩ := hrec
        refine ⟨core2, roots2, by rw [processEvents_start]; exact hp, ?_⟩
        simp [topCount]
        omega
      | succ d0 =>
        obtain ⟨rest, hroots, hrest⟩ := hsh
        have hnew : rootsInv (rootsStart roots) (d0 + 2) t := by
          subst hroots
          exact ⟨by simpa using hlen0, rest, rfl, hrest⟩
        have hrec := ih (d0 + 2) (rootsStart roots) t
          ⟨core.pos, core.open_delims, core.text_pos, core.inner ++ [.istart k],
            core.token_map⟩ (by simpa [wfEvents] using hwf) hnew
        obtain ⟨core2, roots2, hp, hlen⟩ := hrec
        exact ⟨core2, roots2, by rw [processEvents_start]; exact hp,
          by simpa [topCount] using hlen⟩
    | finishNodeEv =>
      cases d with
      | zero => simp [wfEvents] at hwf
      | succ d0 =>
        obtain ⟨hlen0, rest, hroots, hrest⟩ := hinv
        subst hroots
        have hfin : rootsFinish ((d0 + 1) :: rest) = .ok (d0 :: rest) := rfl
        have hnew : rootsInv (d0 :: rest) d0 t := by
          cases d0 with
          | zero =>
            refine ⟨by simpa using hlen0, ?_⟩
            intro x hx
            rcases List.mem_cons.mp hx with hx | hx
            · exact hx
            · exact hrest x hx
          | succ d1 => exact ⟨by simpa using hlen0, rest, rfl, hrest⟩
        have hrec := ih d0 (d0 :: rest) t
          ⟨core.pos, core.open_delims, core.text_pos, core.inner ++ [.ifinish], core.token_map⟩
          (by simpa [wfEvents] using hwf) hnew
        obtain ⟨core2, roots2, hp, hlen⟩ := hrec
        refine ⟨core2, roots2, ?_, by simpa [topCount] using hlen⟩
        rw [processEvents_finish, hfin]
        exact hp

/-- C6: under well-formed parser events (and the sink's ascii-punct
precondition), token_tree_to_syntax_node returns Err(ConversionError)
exactly when the parse produced a number of roots different from one, and
otherwise returns the built tree paired with the token map the sink
accumulated. -/
theorem c6_thm (tt : Subtree) (events : List ParserEvent)
    (hwf : wfEvents events 0 = true) (hb : asciiOk (mkBuffer tt) = true) :
    ∃ core roots,
      processEvents (mkBuffer tt) events initialSinkCore [] = .ok (core, roots) ∧
      roots.length = topCount events 0 ∧
      (tokenTreeToSyntaxNode tt events = .ok (.error .ConversionError) ↔
        topCount events 0 ≠ 1) ∧
      (topCount events 0 = 1 →
        tokenTreeToSyntaxNode tt events = .ok (.ok (core.inner, core.token_map))) := by
  obtain ⟨core, roots, hp, hlen⟩ :=
    processEvents_wf (mkBuffer tt) hb events 0 [] 0 initialSinkCore hwf
      ⟨rfl, fun x hx => absurd hx (List.not_mem_nil x)⟩
  simp only [Nat.zero_add] at hlen
  refine ⟨core, roots, hp, hlen, ?_, ?_⟩
  · unfold tokenTreeToSyntaxNode
    simp only [hp]
    rw [hlen]
    by_cases hone : topCount events 0 = 1
    · simp [hone]
    · simp [hone]
  · intro hone
    unfold tokenTreeToSyntaxNode
    simp only [hp]
    rw [hlen]
    simp [hone]

/-- C6 witness: a one-root parse of the one-leaf tree succeeds with the
sink's tree and map; a two-root event sequence yields ConversionError. -/
theorem c6_witness :
    (∃ core roots,
      processEvents (mkBuffer Fixture.ttW) Fixture.eventsW initialSinkCore [] =
        .ok (core, roots) ∧
      roots.length = topCount Fixture.eventsW 0 ∧
      (tokenTreeToSyntaxNode Fixture.ttW Fixture.eventsW = .ok (.error .ConversionError) ↔
        topCount Fixture.eventsW 0 ≠ 1) ∧
      (topCount Fixture.eventsW 0 = 1 →
        tokenTreeToSyntaxNode Fixture.ttW Fixture.eventsW =
          .ok (.ok (core.inner, core.token_map)))) :=
  c6_thm Fixture.ttW Fixture.eventsW (by decide) (by decide)

/-- Lexer-shaped source tokens: every punct token is a single character
with its text available, and comments are absent (the doc-comment branch
is out of scope for the delimiter-recovery claims). -/
abbrev wfStream (ts : List STok) : Prop :=
  ∀ t ∈ ts,
    (t.kind.is_punct = true → t.range.len = 1 ∧ t.text.toList ≠ []) ∧ t.kind ≠ .COMMENT

theorem convLoop_no_panic (dc : STok → Option (List TokenTree)) :
    ∀ (ts : List STok) (root : List TokenTree) (stack : List StackEntry)
      (alloc : TokenIdAlloc), wfStream ts →
    ∃ v, convLoop dc ts root stack alloc = .ok v := by
  intro ts
  induction ts with
  | nil => intro root stack alloc _; exact ⟨_, rfl⟩
  | cons t ts ih =>
    intro root stack alloc hwf
    have ht := hwf t (List.mem_cons_self t ts)
    have hts : wfStream ts := fun x hx => hwf x (List.mem_cons_of_mem t hx)
    unfold convLoop
    rw [if_neg ht.2]
    by_cases hp : t.kind.is_punct = true ∧ t.kind ≠ .UNDERSCORE
    · rw [if_pos hp]
      obtain ⟨hlen, hchar⟩ := ht.1 hp.1
      rw [if_neg (by omega)]
      cases hct : closerTest stack t.kind with
      | some p =>
        obtain ⟨e, es⟩ := p
        exact ih _ _ _ hts
      | none =>
        cases hod : openerDelim t.kind with
        | some kd => exact ih _ _ _ hts
        | none =>
          obtain ⟨c, cs, hcc⟩ := List.exists_cons_of_ne_nil hchar
          simp only [hcc, List.head?_cons]
          exact ih _ _ _ hts
    · rw [if_neg hp]
      split_ifs <;> exact ih _ _ _ hts

theorem convertTokens_no_panic (dc : STok → Option (List TokenTree))
    (global_offset : Nat) (ts : List STok) (hwf : wfStream ts) :
    ∃ v, convertTokens dc global_offset ts = .ok v := by
  obtain ⟨v, hv⟩ := convLoop_no_panic dc ts [] [] ⟨[], global_offset, 0⟩ hwf
  unfold convertTokens
  rw [hv]
  exact ⟨_, rfl⟩

/-- C7 counterexample: the unmatched closing paren is not ignored — it
survives in the converted tree as a punct leaf, so the output differs
from the conversion of the same input without the stray closer. -/
theorem c7_counterexample :
    convertTokens Fixture.dcNone 0 Fixture.strayCloserToks =
      .ok (⟨none, [.leaf (.ident "a" 0), .leaf (.punct ')' .alone 1)]⟩,
        [(0, .token ⟨0, 1⟩), (1, .token ⟨1, 2⟩)])
    ∧ convertTokens Fixture.dcNone 0 [⟨.IDENT, "a", ⟨0, 1⟩⟩] =
      .ok (⟨none, [.leaf (.ident "a" 0)]⟩, [(0, .token ⟨0, 1⟩)])
    ∧ ([TokenTree.leaf (.ident "a" 0), .leaf (.punct ')' .alone 1)] : List TokenTree).length ≠
      ([TokenTree.leaf (.ident "a" 0)] : List TokenTree).length :=
  ⟨rfl, rfl, by decide⟩

/-- C7 amended: for lexer-shaped inputs with unbalanced delimiters the
conversion terminates without panicking; an unmatched closing delimiter
pops no subtree and is emitted as an ordinary punct leaf; and at end of
input each still-open subtree is flattened: its opener is re-emitted as a
punct leaf with a fresh token id at the opener's range, the pending
delimiter entry is removed from the token map, and the subtree's contents
are appended to its parent. -/
theorem c7_thm :
    (∀ a b : String,
      convertTokens Fixture.dcNone 0
        [⟨.L_PAREN, "(", ⟨0, 1⟩⟩, ⟨.IDENT, a, ⟨1, 2⟩⟩, ⟨.COMMA, ",", ⟨2, 3⟩⟩,
          ⟨.IDENT, b, ⟨3, 4⟩⟩] =
      .ok (⟨none, [.leaf (.punct '(' .alone 4), .leaf (.ident a 1), .leaf (.punct ',' .alone 2),
          .leaf (.ident b 3)]⟩,
        [(1, .token ⟨1, 2⟩), (2, .token ⟨2, 3⟩), (3, .token ⟨3, 4⟩), (4, .token ⟨0, 1⟩)]))
    ∧ (∀ a : String,
      convertTokens Fixture.dcNone 0 [⟨.IDENT, a, ⟨0, 1⟩⟩, ⟨.R_PAREN, ")", ⟨1, 2⟩⟩] =
      .ok (⟨none, [.leaf (.ident a 0), .leaf (.punct ')' .alone 1)]⟩,
        [(0, .token ⟨0, 1⟩), (1, .token ⟨1, 2⟩)]))
    ∧ (∀ (dc : STok → Option (List TokenTree)) (ts : List STok), wfStream ts →
      ∃ v, convertTokens dc 0 ts = .ok v) :=
  ⟨fun a b => rfl, fun a => rfl, fun dc ts hwf => convertTokens_no_panic dc 0 ts hwf⟩

/-- C7 witness: the flattening family at concrete identifiers, the stray
closer family, and the no-panic statement on the scenario-6 input. -/
theorem c7_witness :
    convertTokens Fixture.dcNone 0
      [⟨.L_PAREN, "(", ⟨0, 1⟩⟩, ⟨.IDENT, "a", ⟨1, 2⟩⟩, ⟨.COMMA, ",", ⟨2, 3⟩⟩,
        ⟨.IDENT, "b", ⟨3, 4⟩⟩] =
      .ok (⟨none, [.leaf (.punct '(' .alone 4), .leaf (.ident "a" 1),
          .leaf (.punct ',' .alone 2), .leaf (.ident "b" 3)]⟩,
        [(1, .token ⟨1, 2⟩), (2, .token ⟨2, 3⟩), (3, .token ⟨3, 4⟩), (4, .token ⟨0, 1⟩)])
    ∧ (∃ v, convertTokens Fixture.dcNone 0 Fixture.unterminatedToks = .ok v) :=
  ⟨c7_thm.1 "a" "b", c7_thm.2.2 Fixture.dcNone Fixture.unterminatedToks (by decide)⟩

/-- C8 counterexample: a plus immediately followed by an opening paren —
a punct other than underscore — is emitted with spacing Alone, not Joint
as the claim states. -/
theorem c8_counterexample :
    convertTokens Fixture.dcNone 0 Fixture.plusParenToks =
      .ok (⟨none, [.leaf (.punct '+' .alone 0), .leaf (.punct '(' .alone 2)]⟩,
        [(0, .token ⟨0, 1⟩), (2, .token ⟨1, 2⟩)])
    ∧ SyntaxKind.is_punct .L_PAREN = true
    ∧ SyntaxKind.L_PAREN ≠ SyntaxKind.UNDERSCORE
    ∧ Spacing.alone ≠ Spacing.joint :=
  ⟨rfl, rfl, by decide, by decide⟩

/-- C8 amended: a non-delimiter punct is emitted with spacing Joint
exactly when the immediately following token is a punct other than
underscore that is not an opening delimiter; Alone otherwise (trivia are
never puncts, so they fall under otherwise). -/
theorem c8_thm :
    (∀ next : Option STok,
      punctSpacing next = .joint ↔
        ∃ t, next = some t ∧ t.kind.is_punct = true ∧ t.kind ≠ .UNDERSCORE ∧
          t.kind ≠ .L_PAREN ∧ t.kind ≠ .L_BRACK ∧ t.kind ≠ .L_CURLY)
    ∧ convertTokens Fixture.dcNone 0 Fixture.plusPlusToks =
      .ok (⟨none, [.leaf (.punct '+' .joint 0), .leaf (.punct '+' .alone 1)]⟩,
        [(0, .token ⟨0, 1⟩), (1, .token ⟨1, 2⟩)])
    ∧ convertTokens Fixture.dcNone 0 Fixture.plusParenToks =
      .ok (⟨none, [.leaf (.punct '+' .alone 0), .leaf (.punct '(' .alone 2)]⟩,
        [(0, .token ⟨0, 1⟩), (2, .token ⟨1, 2⟩)]) := by
  refine ⟨?_, rfl, rfl⟩
  intro next
  cases next with
  | none => simp [punctSpacing]
  | some t =>
    obtain ⟨k, tx, r⟩ := t
    cases k <;>
      simp [punctSpacing, SyntaxKind.is_punct, SyntaxKind.is_trivia]

/-- A database is well behaved when every expansion info whose expander is
declarative has captured the macro definition body (the salsa pipeline
guarantees this: macro_def only builds a declarative expander by parsing
the very body that expansion_info re-reads). -/
def wellBehaved (db : AstDatabase) : Prop :=
  ∀ h info, expansionInfo db h = some info →
    ∀ m s, info.macro_def = .declarative m s → info.attr_input_or_mac_def.isSome = true

theorem mapIdUp_def_declarative (e : TokenExpander) (id : TokenId)
    (h : (e.mapIdUp id).2 = .def_) : ∃ m s, e = .declarative m s := by
  cases e with
  | declarative m s => exact ⟨m, s, rfl⟩
  | builtin => simp [TokenExpander.mapIdUp] at h
  | builtinAttr => simp [TokenExpander.mapIdUp] at h
  | builtinDerive => simp [TokenExpander.mapIdUp] at h
  | builtinEager => simp [TokenExpander.mapIdUp] at h
  | proc => simp [TokenExpander.mapIdUp] at h

theorem mapTokenUp_no_panic (db : AstDatabase) (info : ExpansionInfo)
    (hwb : ∀ m s, info.macro_def = .declarative m s → info.attr_input_or_mac_def.isSome = true)
    (token : InFile STok) (m : String) : mapTokenUp db info token ≠ .panicked m := by
  intro hcontra
  unfold mapTokenUp at hcontra
  split at hcontra
  · simp at hcontra
  next tid0 h0 =>
    split at hcontra
    · simp at hcontra
    next callId hf =>
      split at hcontra
      next m0 hs =>
        obtain ⟨hm, hAttr, hDef, hDecl⟩ :=
          (mapTokenUpSel_panic_iff db info callId _ m0).mp hs
        obtain ⟨dm, ds, hd⟩ := mapIdUp_def_declarative info.macro_def tid0 hDef
        rcases hDecl with hDecl | hDecl
        · rw [hd] at hDecl
          simp [TokenExpander.isDeclarative] at hDecl
        · have hv := hwb dm ds hd
          rw [hDecl] at hv
          simp at hv
      · simp at hcontra
      next s hs => exact mapTokenUpFinish_no_panic _ _ _ m hcontra

theorem ascendCallToken_no_panic (db : AstDatabase) (hwb : wellBehaved db) :
    ∀ (fuel : Nat) (expansion : ExpansionInfo),
    (∀ m s, expansion.macro_def = .declarative m s →
      expansion.attr_input_or_mac_def.isSome = true) →
    ∀ (token : InFile STok) (m : String),
    ascendCallToken db fuel expansion token ≠ .panicked m := by
  intro fuel
  induction fuel with
  | zero =>
    intro expansion hexp token m hcontra
    unfold ascendCallToken at hcontra
    split at hcontra
    next m0 hu => exact mapTokenUp_no_panic db expansion hexp token m0 hu
    · simp at hcontra
    next mapped origin hu =>
      split at hcontra
      · simp at hcontra
      · split at hcontra <;> simp at hcontra
  | succ fuel ih =>
    intro expansion hexp token m hcontra
    unfold ascendCallToken at hcontra
    split at hcontra
    next m0 hu => exact mapTokenUp_no_panic db expansion hexp token m0 hu
    · simp at hcontra
    next mapped origin hu =>
      split at hcontra
      · simp at hcontra
      next =>
        split at hcontra
        next info hi => exact ih info (hwb mapped.file_id info hi) mapped m hcontra
        · simp at hcontra

theorem origRangeStep_no_panic (db : AstDatabase) (hwb : wellBehaved db) (fuel : Nat)
    (expansion : ExpansionInfo)
    (hexp : ∀ m s, expansion.macro_def = .declarative m s →
      expansion.attr_input_or_mac_def.isSome = true)
    (node : InFile SyntaxNode) (single : Bool) (it : SyntaxNode) (m : String) :
    origRangeStep db fuel expansion node single it ≠ .panicked m := by
  intro hcontra
  unfold origRangeStep at hcontra
  split at hcontra
  · simp at hcontra
  next ft hft =>
    split at hcontra
    · simp at hcontra
    next f0 hf0 =>
      split at hcontra
      next m0 ha => exact ascendCallToken_no_panic db hwb fuel expansion hexp _ m0 ha
      · simp at hcontra
      next first hfirst =>
        split at hcontra
        · simp at hcontra
        next lt hlt =>
          split at hcontra
          · simp at hcontra
          next l0 hl0 =>
            split at hcontra
            next m0 hb => exact ascendCallToken_no_panic db hwb fuel expansion hexp _ m0 hb
            · simp at hcontra
            next last_ hlast => split at hcontra <;> simp at hcontra

theorem originalRangeOpt_no_panic (db : AstDatabase) (hwb : wellBehaved db) (fuel : Nat)
    (node : InFile SyntaxNode) (m : String) :
    originalRangeOpt db fuel node ≠ .panicked m := by
  intro hcontra
  unfold originalRangeOpt at hcontra
  split at hcontra
  · simp at hcontra
  next expansion hE =>
    split at hcontra
    · simp at hcontra
    next single hS =>
      exact findMapP_no_panic _ _
        (fun it _ m0 =>
          origRangeStep_no_panic db hwb fuel expansion
            (hwb node.file_id expansion hE) node single it m0) m hcontra

theorem originalFileRangeOpt_no_panic (db : AstDatabase) (hwb : wellBehaved db) (fuel : Nat)
    (node : InFile SyntaxNode) (m : String) :
    originalFileRangeOpt db fuel node ≠ .panicked m := by
  intro hcontra
  unfold originalFileRangeOpt at hcontra
  split at hcontra
  next m0 ho => exact originalRangeOpt_no_panic db hwb fuel node m0 ho
  next range ho => split at hcontra <;> simp at hcontra
  next ho =>
    split at hcontra
    · simp at hcontra
    · split at hcontra <;> simp at hcontra

theorem callNode_none_iff (db : AstDatabase) (h : HirFileId) :
    callNode db h = none ↔ ∃ f, h = .fileId f := by
  cases h with
  | fileId f => simp [callNode]
  | macroFile id => simp [callNode]

theorem callClimb_real (db : AstDatabase) :
    ∀ (fuel : Nat) (node base : InFile SyntaxNode),
    callClimb db fuel node = some base → ∃ f, base.file_id = .fileId f := by
  intro fuel
  induction fuel with
  | zero =>
    intro node base h
    unfold callClimb at h
    cases hc : callNode db node.file_id with
    | none =>
      rw [hc] at h
      obtain ⟨f, hf⟩ := (callNode_none_iff db node.file_id).mp hc
      cases h
      exact ⟨f, hf⟩
    | some p => rw [hc] at h; cases h
  | succ fuel ih =>
    intro node base h
    unfold callClimb at h
    cases hc : callNode db node.file_id with
    | none =>
      rw [hc] at h
      obtain ⟨f, hf⟩ := (callNode_none_iff db node.file_id).mp hc
      cases h
      exact ⟨f, hf⟩
    | some p =>
      rw [hc] at h
      exact ih p base h

/-- C1: original_file_range surfaces no error: under a well-behaved
database it never panics; when original_file_range_opt yields a precisely
mapped range that range is returned; and otherwise it climbs through the
enclosing call nodes and returns the text range of the outermost macro
call in the node's original real file (the internal assert_eq on the
climbed-to file always holds because climbing stops exactly at a real
file). -/
theorem c1_thm :
    (∀ (db : AstDatabase) (fuel : Nat) (node : InFile SyntaxNode),
      wellBehaved db → ∀ m, originalFileRange db fuel node ≠ .panicked m)
    ∧ (∀ (db : AstDatabase) (fuel : Nat) (node : InFile SyntaxNode)
        (r : FileId × TextRange),
      originalFileRangeOpt db fuel node = .ok (some r) →
      originalFileRange db fuel node = .ok (some r))
    ∧ (∀ (db : AstDatabase) (fuel : Nat) (node : InFile SyntaxNode),
      originalFileRangeOpt db fuel node = .ok none →
      ∀ base, callClimb db fuel node = some base →
      ∃ f, base.file_id = .fileId f ∧
        originalFileRange db fuel node = .ok (some (f, base.value.textRange))) := by
  refine ⟨?_, ?_, ?_⟩
  · intro db fuel node hwb m
    unfold originalFileRange
    cases ho : originalFileRangeOpt db fuel node with
    | panicked m0 => exact absurd ho (originalFileRangeOpt_no_panic db hwb fuel node m0)
    | ok v =>
      cases v with
      | some r => simp
      | none =>
        cases hc : callClimb db fuel node with
        | none => simp
        | some base =>
          obtain ⟨f, hf⟩ := callClimb_real db fuel node base hc
          simp [hf, originalFile_fileId]
  · intro db fuel node r h
    unfold originalFileRange
    rw [h]
  · intro db fuel node h base hc
    obtain ⟨f, hf⟩ := callClimb_real db fuel node base hc
    refine ⟨f, hf, ?_⟩
    unfold originalFileRange
    rw [h, hc]
    simp [hf, originalFile_fileId]

/-- C1 witness: the precise case on the fixture expansion and the fallback
case on the unmappable node, whose outermost call is m!(x) spanning 0..5
of real file 0. -/
theorem c1_witness :
    originalFileRange Fixture.db1 0 Fixture.node1 = .ok (some (0, ⟨3, 4⟩))
    ∧ (∃ f, (⟨.fileId 0, Fixture.callSyn⟩ : InFile SyntaxNode).file_id = .fileId f ∧
        originalFileRange Fixture.db1 1 Fixture.nodeQ =
          .ok (some (f, (⟨.fileId 0, Fixture.callSyn⟩ : InFile SyntaxNode).value.textRange)))
    ∧ (∀ m, originalFileRange Fixture.db1 0 Fixture.node1 ≠ .panicked m) := by
  refine ⟨c1_thm.2.1 Fixture.db1 0 Fixture.node1 (0, ⟨3, 4⟩) rfl,
    c1_thm.2.2 Fixture.db1 1 Fixture.nodeQ rfl ⟨.fileId 0, Fixture.callSyn⟩ rfl,
    c1_thm.1 Fixture.db1 0 Fixture.node1 ?_⟩
  intro h info hinfo m s hdecl
  cases h with
  | fileId f => cases hinfo
  | macroFile id =>
    have h2 : expansionInfo Fixture.db1 (.macroFile id) =
        some ⟨⟨.macroFile id, Fixture.expSyn⟩, ⟨.fileId 0, Fixture.argSyn⟩,
          some ⟨.fileId 0, Fixture.bodySyn⟩, Fixture.expander0,
          (Fixture.macroArgSubtree, Fixture.macroArgMap), 2, Fixture.expMap⟩ := rfl
    rw [h2] at hinfo
    have h3 := Option.some.inj hinfo
    rw [← h3]
    rfl

/-- C9: map_token_down asserts that the queried token lies in the same
file as the expansion's stored argument node: a differing file id is a
fatal assertion, never a None result. -/
theorem c9_thm (db : AstDatabase) (info : ExpansionInfo) (item : Option SyntaxNode)
    (token : InFile STok) (h : token.file_id ≠ info.arg.file_id) :
    mapTokenDown db info item token = .panicked mapTokenDownAssertMsg := by
  unfold mapTokenDown
  rw [if_pos h]

/-- C9 witness: a token attributed to macro file 3 against the fixture
expansion whose argument lives in real file 0. -/
theorem c9_witness :
    mapTokenDown Fixture.db1 Fixture.info1 none ⟨.macroFile 3, Fixture.expTok⟩ =
      .panicked mapTokenDownAssertMsg :=
  c9_thm Fixture.db1 Fixture.info1 none ⟨.macroFile 3, Fixture.expTok⟩ (by decide)

/-- C10: for a node of a real file, original_file_range_opt is always Some
with the file's own id and the node's own range, although no expansion
info exists for a real file. -/
theorem c10_thm (db : AstDatabase) (fuel : Nat) (f : FileId) (node : InFile SyntaxNode)
    (h : node.file_id = .fileId f) :
    originalFileRangeOpt db fuel node = .ok (some (f, node.value.textRange)) := by
  obtain ⟨fid, v⟩ := node
  simp only at h
  subst h
  unfold originalFileRangeOpt originalRangeOpt
  simp only [expansionInfo, isMacroFile, originalFile_fileId]
  rfl

/-- C10 witness: the real-file node fixture. -/
theorem c10_witness :
    originalFileRangeOpt Fixture.db1 0 Fixture.nodeR =
      .ok (some (7, Fixture.nodeR.value.textRange)) :=
  c10_thm Fixture.db1 0 7 Fixture.nodeR rfl

end RA
